import Mathlib

/-!
Verification of the session-token codec (`src/lib/session.ts`) and the
SigV4-style request signer (`src/lib/r2.ts`) of the minted-directory-astro
repository, together with the diagnostic storage endpoint
(`src/pages/api/test-r2.ts`).

Strings are Lean `String`s (JS strings restricted to Unicode scalar values),
byte buffers are `List Nat` with every entry `< 256`, and machine words are
`Nat` reduced modulo `2 ^ 32` where the source relies on 32-bit overflow.
External library functions used by the source (`node:crypto` HMAC-SHA-256,
base64 codecs of `Buffer`, `encodeURIComponent`, `Date` formatting) are
embedded by their documented algorithms so that every definition is
executable.
-/

namespace MintedDir

/-! ## 32-bit words and SHA-256 (`node:crypto` `createHash('sha256')`) -/

/-- Truncate to a 32-bit word, as all SHA-256 arithmetic is mod `2 ^ 32`. -/
def w32 (n : Nat) : Nat := n % 4294967296

/-- 32-bit right rotation. -/
def rotr32 (k n : Nat) : Nat := w32 ((n >>> k) ||| (n <<< (32 - k)))

/-- The 64 SHA-256 round constants. -/
def sha256K : List Nat :=
  [1116352408, 1899447441, 3049323471, 3921009573, 961987163, 1508970993,
   2453635748, 2870763221, 3624381080, 310598401, 607225278, 1426881987,
   1925078388, 2162078206, 2614888103, 3248222580, 3835390401, 4022224774,
   264347078, 604807628, 770255983, 1249150122, 1555081692, 1996064986,
   2554220882, 2821834349, 2952996808, 3210313671, 3336571891, 3584528711,
   113926993, 338241895, 666307205, 773529912, 1294757372, 1396182291,
   1695183700, 1986661051, 2177026350, 2456956037, 2730485921, 2820302411,
   3259730800, 3345764771, 3516065817, 3600352804, 4094571909, 275423344,
   430227734, 506948616, 659060556, 883997877, 958139571, 1322822218,
   1537002063, 1747873779, 1955562222, 2024104815, 2227730452, 2361852424,
   2428436474, 2756734187, 3204031479, 3329325298]

/-- The initial SHA-256 hash state. -/
def sha256Init : List Nat :=
  [1779033703, 3144134277, 1013904242, 2773480762,
   1359893119, 2600822924, 528734635, 1541459225]

/-- SHA-256 message padding: append `0x80`, zeros, and the 64-bit big-endian
bit length, reaching a multiple of 64 bytes. -/
def sha256Pad (msg : List Nat) : List Nat :=
  let bitLen := msg.length * 8
  let zeros := (64 - (msg.length + 9) % 64) % 64
  msg ++ [0x80] ++ List.replicate zeros 0 ++
    [bitLen / 2^56 % 256, bitLen / 2^48 % 256, bitLen / 2^40 % 256,
     bitLen / 2^32 % 256, bitLen / 2^24 % 256, bitLen / 2^16 % 256,
     bitLen / 2^8 % 256, bitLen % 256]

/-- Split a byte list into 64-byte chunks. -/
def chunks64 (l : List Nat) : List (List Nat) :=
  if l.isEmpty then [] else l.take 64 :: chunks64 (l.drop 64)
termination_by l.length
decreasing_by
  cases l with
  | nil => simp_all
  | cons a t => simp [List.length_drop]; omega

/-- Combine bytes into big-endian 32-bit words. -/
def bytesToWords : List Nat → List Nat
  | b0 :: b1 :: b2 :: b3 :: rest =>
      (b0 * 2^24 + b1 * 2^16 + b2 * 2^8 + b3) :: bytesToWords rest
  | _ => []

/-- The next word of the SHA-256 message schedule from the previous 16. -/
def sha256NextW (ws : List Nat) : Nat :=
  let n := ws.length
  let w15 := ws.getD (n - 15) 0
  let w2 := ws.getD (n - 2) 0
  let w16 := ws.getD (n - 16) 0
  let w7 := ws.getD (n - 7) 0
  let s0 := (rotr32 7 w15) ^^^ (rotr32 18 w15) ^^^ (w15 >>> 3)
  let s1 := (rotr32 17 w2) ^^^ (rotr32 19 w2) ^^^ (w2 >>> 10)
  w32 (w16 + s0 + w7 + s1)

/-- Extend the 16 block words to the 64-entry message schedule. -/
def sha256Schedule : List Nat → Nat → List Nat
  | ws, 0 => ws
  | ws, n + 1 => sha256Schedule (ws ++ [sha256NextW ws]) n

/-- One SHA-256 compression round. -/
def sha256Round (st : List Nat) (wk : Nat × Nat) : List Nat :=
  match st with
  | [a, b, c, d, e, f, g, h] =>
    let S1 := (rotr32 6 e) ^^^ (rotr32 11 e) ^^^ (rotr32 25 e)
    let ch := (e &&& f) ^^^ ((2^32 - 1 - w32 e) &&& g)
    let temp1 := w32 (h + S1 + ch + wk.2 + wk.1)
    let S0 := (rotr32 2 a) ^^^ (rotr32 13 a) ^^^ (rotr32 22 a)
    let maj := (a &&& b) ^^^ (a &&& c) ^^^ (b &&& c)
    let temp2 := w32 (S0 + maj)
    [w32 (temp1 + temp2), a, b, c, w32 (d + temp1), e, f, g]
  | st => st

/-- Process one 64-byte block, updating the 8-word hash state. -/
def sha256Block (st : List Nat) (block : List Nat) : List Nat :=
  let ws := sha256Schedule (bytesToWords block) 48
  let st' := (ws.zip sha256K).foldl sha256Round st
  (st.zip st').map (fun p => w32 (p.1 + p.2))

/-- Serialize a 32-bit word to 4 big-endian bytes. -/
def wordBytes (w : Nat) : List Nat :=
  [w / 2^24 % 256, w / 2^16 % 256, w / 2^8 % 256, w % 256]

/-- SHA-256 of a byte list (32 output bytes). -/
def sha256 (msg : List Nat) : List Nat :=
  let st := (chunks64 (sha256Pad msg)).foldl sha256Block sha256Init
  st.flatMap wordBytes

/-- HMAC-SHA-256 (`createHmac('sha256', key).update(msg).digest()`). -/
def hmacSha256 (key msg : List Nat) : List Nat :=
  let k0 := if 64 < key.length then sha256 key else key
  let k := k0 ++ List.replicate (64 - k0.length) 0
  let ipad := k.map (fun b => b ^^^ 0x36)
  let opad := k.map (fun b => b ^^^ 0x5c)
  sha256 (opad ++ sha256 (ipad ++ msg))

theorem wordBytes_lt (w : Nat) : ∀ b ∈ wordBytes w, b < 256 := by
  simp [wordBytes]
  refine ⟨?_, ?_, ?_, ?_⟩ <;> exact Nat.mod_lt _ (by norm_num)

/-- Every byte of a SHA-256 digest is a byte value. -/
theorem sha256_lt (msg : List Nat) : ∀ b ∈ sha256 msg, b < 256 := by
  intro b hb
  simp only [sha256, List.mem_flatMap] at hb
  obtain ⟨w, _, hw⟩ := hb
  exact wordBytes_lt w b hw

/-- Every byte of an HMAC-SHA-256 digest is a byte value. -/
theorem hmacSha256_lt (key msg : List Nat) : ∀ b ∈ hmacSha256 key msg, b < 256 := by
  intro b hb
  exact sha256_lt _ b hb

/-! ## UTF-8 (`Buffer.from(s, 'utf8')` and `buf.toString('utf8')`) -/

/-- UTF-8 encoding of one Unicode scalar value. -/
def utf8EncodeChar (c : Char) : List Nat :=
  let n := c.toNat
  if n < 0x80 then [n]
  else if n < 0x800 then [0xC0 + n / 64, 0x80 + n % 64]
  else if n < 0x10000 then [0xE0 + n / 4096, 0x80 + n / 64 % 64, 0x80 + n % 64]
  else [0xF0 + n / 262144, 0x80 + n / 4096 % 64, 0x80 + n / 64 % 64, 0x80 + n % 64]

/-- UTF-8 encoding of a character list. -/
def utf8Encode : List Char → List Nat
  | [] => []
  | c :: cs => utf8EncodeChar c ++ utf8Encode cs

/-- UTF-8 bytes of a string, as `Buffer.from(s, 'utf8')` produces. -/
def strUtf8 (s : String) : List Nat := utf8Encode s.data

/-- U+FFFD, the replacement character emitted for invalid byte sequences. -/
def replChar : Char := '�'

/-- Decode one UTF-8 character from a lead byte and the remaining bytes,
returning the character and the unconsumed bytes. -/
def utf8Step (b : Nat) (rest : List Nat) : Char × List Nat :=
  if b < 0x80 then (Char.ofNat b, rest)
  else if b < 0xC0 then (replChar, rest)
  else if b < 0xE0 then
    match rest with
    | b1 :: r =>
        if 0x80 ≤ b1 ∧ b1 < 0xC0 then
          (Char.ofNat ((b - 0xC0) * 64 + (b1 - 0x80)), r)
        else (replChar, b1 :: r)
    | [] => (replChar, [])
  else if b < 0xF0 then
    match rest with
    | b1 :: b2 :: r =>
        if (0x80 ≤ b1 ∧ b1 < 0xC0) ∧ (0x80 ≤ b2 ∧ b2 < 0xC0) then
          (Char.ofNat ((b - 0xE0) * 4096 + (b1 - 0x80) * 64 + (b2 - 0x80)), r)
        else (replChar, b1 :: b2 :: r)
    | r => (replChar, r)
  else
    match rest with
    | b1 :: b2 :: b3 :: r =>
        if (0x80 ≤ b1 ∧ b1 < 0xC0) ∧ (0x80 ≤ b2 ∧ b2 < 0xC0) ∧
            (0x80 ≤ b3 ∧ b3 < 0xC0) then
          (Char.ofNat ((b - 0xF0) * 262144 + (b1 - 0x80) * 4096 +
            (b2 - 0x80) * 64 + (b3 - 0x80)), r)
        else (replChar, b1 :: b2 :: b3 :: r)
    | r => (replChar, r)

theorem utf8Step_length_le (b : Nat) (rest : List Nat) :
    (utf8Step b rest).2.length ≤ rest.length := by
  unfold utf8Step
  repeat' split
  all_goals simp_all
  all_goals omega

/-- Total UTF-8 decoder modelling `buf.toString('utf8')`. -/
def utf8Decode : List Nat → List Char
  | [] => []
  | b :: rest =>
    (utf8Step b rest).1 :: utf8Decode (utf8Step b rest).2
termination_by l => l.length
decreasing_by
  have := utf8Step_length_le b rest
  simp; omega

/-- Decode bytes into a string. -/
def utf8DecodeStr (l : List Nat) : String := String.mk (utf8Decode l)

theorem utf8Step_encodeChar (c : Char) (rest : List Nat) :
    ∃ b t, utf8EncodeChar c ++ rest = b :: t ∧ utf8Step b t = (c, rest) := by
  have hroundtrip := Char.ofNat_toNat c
  rcases Nat.lt_or_ge c.toNat 0x80 with h1 | h1
  · refine ⟨c.toNat, rest, ?_, ?_⟩
    · simp [utf8EncodeChar, h1]
    · simp [utf8Step, h1]
  rcases Nat.lt_or_ge c.toNat 0x800 with h2 | h2
  · refine ⟨0xC0 + c.toNat / 64, (0x80 + c.toNat % 64) :: rest, ?_, ?_⟩
    · simp [utf8EncodeChar, Nat.not_lt_of_ge h1, h2]
    · have hb : ¬ (0xC0 + c.toNat / 64 < 0x80) := by omega
      have hb' : ¬ (0xC0 + c.toNat / 64 < 0xC0) := by omega
      have hb'' : 0xC0 + c.toNat / 64 < 0xE0 := by omega
      have hc : 0x80 ≤ 0x80 + c.toNat % 64 ∧ 0x80 + c.toNat % 64 < 0xC0 := by omega
      simp [utf8Step, hb, hb', hb'', hc]
      have hx : c.toNat / 64 * 64 + c.toNat % 64 = c.toNat := by omega
      rw [hx]
      exact hroundtrip
  rcases Nat.lt_or_ge c.toNat 0x10000 with h3 | h3
  · refine ⟨0xE0 + c.toNat / 4096,
      (0x80 + c.toNat / 64 % 64) :: (0x80 + c.toNat % 64) :: rest, ?_, ?_⟩
    · simp [utf8EncodeChar, Nat.not_lt_of_ge h1, Nat.not_lt_of_ge h2, h3]
    · have hb : ¬ (0xE0 + c.toNat / 4096 < 0x80) := by omega
      have hb' : ¬ (0xE0 + c.toNat / 4096 < 0xC0) := by omega
      have hb'' : ¬ (0xE0 + c.toNat / 4096 < 0xE0) := by omega
      have hb3 : 0xE0 + c.toNat / 4096 < 0xF0 := by omega
      have hc : (0x80 ≤ 0x80 + c.toNat / 64 % 64 ∧ 0x80 + c.toNat / 64 % 64 < 0xC0) ∧
          (0x80 ≤ 0x80 + c.toNat % 64 ∧ 0x80 + c.toNat % 64 < 0xC0) := by omega
      simp [utf8Step, hb, hb', hb'', hb3, hc]
      have hx : c.toNat / 4096 * 4096 + c.toNat / 64 % 64 * 64 + c.toNat % 64
          = c.toNat := by omega
      rw [hx]
      exact hroundtrip
  · refine ⟨0xF0 + c.toNat / 262144,
      (0x80 + c.toNat / 4096 % 64) :: (0x80 + c.toNat / 64 % 64) ::
        (0x80 + c.toNat % 64) :: rest, ?_, ?_⟩
    · simp [utf8EncodeChar, Nat.not_lt_of_ge h1, Nat.not_lt_of_ge h2,
        Nat.not_lt_of_ge h3]
    · have hb : ¬ (0xF0 + c.toNat / 262144 < 0x80) := by omega
      have hb' : ¬ (0xF0 + c.toNat / 262144 < 0xC0) := by omega
      have hb'' : ¬ (0xF0 + c.toNat / 262144 < 0xE0) := by omega
      have hb3 : ¬ (0xF0 + c.toNat / 262144 < 0xF0) := by omega
      have hc : (0x80 ≤ 0x80 + c.toNat / 4096 % 64 ∧ 0x80 + c.toNat / 4096 % 64 < 0xC0) ∧
          (0x80 ≤ 0x80 + c.toNat / 64 % 64 ∧ 0x80 + c.toNat / 64 % 64 < 0xC0) ∧
          (0x80 ≤ 0x80 + c.toNat % 64 ∧ 0x80 + c.toNat % 64 < 0xC0) := by omega
      simp [utf8Step, hb, hb', hb'', hb3, hc]
      have hx : c.toNat / 262144 * 262144 + c.toNat / 4096 % 64 * 4096 +
          c.toNat / 64 % 64 * 64 + c.toNat % 64 = c.toNat := by omega
      rw [hx]
      exact hroundtrip

theorem utf8Decode_encodeChar (c : Char) (rest : List Nat) :
    utf8Decode (utf8EncodeChar c ++ rest) = c :: utf8Decode rest := by
  obtain ⟨b, t, heq, hstep⟩ := utf8Step_encodeChar c rest
  rw [heq]
  rw [utf8Decode, hstep]

/-- Decoding inverts encoding: the UTF-8 round trip on character lists. -/
theorem utf8Decode_utf8Encode (cs : List Char) :
    utf8Decode (utf8Encode cs) = cs := by
  induction cs with
  | nil => simp [utf8Encode, utf8Decode]
  | cons c cs ih => rw [utf8Encode, utf8Decode_encodeChar, ih]

/-- String-level UTF-8 round trip. -/
theorem utf8DecodeStr_strUtf8 (s : String) : utf8DecodeStr (strUtf8 s) = s := by
  simp [utf8DecodeStr, strUtf8, utf8Decode_utf8Encode]

/-- UTF-8 encoding is injective on character lists. -/
theorem utf8Encode_injective : Function.Injective utf8Encode := by
  intro a b h
  have := utf8Decode_utf8Encode a
  rw [h, utf8Decode_utf8Encode b] at this
  exact this.symm

/-- Every byte of a UTF-8 encoding is a byte value. -/
theorem char_toNat_lt (c : Char) : c.toNat < 1114112 := by
  have hv := c.valid
  rw [Char.toNat]
  rcases hv with h | h
  · omega
  · exact h.2

theorem utf8EncodeChar_lt (c : Char) : ∀ b ∈ utf8EncodeChar c, b < 256 := by
  have hc : c.toNat < 1114112 := char_toNat_lt c
  intro b hb
  simp only [utf8EncodeChar] at hb
  rcases Nat.lt_or_ge c.toNat 0x80 with h1 | h1
  · simp [h1] at hb; omega
  rcases Nat.lt_or_ge c.toNat 0x800 with h2 | h2
  · simp [Nat.not_lt_of_ge h1, h2] at hb; omega
  rcases Nat.lt_or_ge c.toNat 0x10000 with h3 | h3
  · simp [Nat.not_lt_of_ge h1, Nat.not_lt_of_ge h2, h3] at hb; omega
  · simp [Nat.not_lt_of_ge h1, Nat.not_lt_of_ge h2, Nat.not_lt_of_ge h3] at hb
    omega

theorem utf8Encode_lt (cs : List Char) : ∀ b ∈ utf8Encode cs, b < 256 := by
  induction cs with
  | nil => simp [utf8Encode]
  | cons c cs ih =>
    intro b hb
    simp only [utf8Encode, List.mem_append] at hb
    rcases hb with hb | hb
    · exact utf8EncodeChar_lt c b hb
    · exact ih b hb

theorem strUtf8_lt (s : String) : ∀ b ∈ strUtf8 s, b < 256 :=
  utf8Encode_lt s.data

/-! ## Base64 and base64url
(`buffer.toString('base64')`, `Buffer.from(str, 'base64')`, and the
`toBase64Url` / `fromBase64Url` helpers of `src/lib/session.ts`) -/

/-- The standard base64 alphabet. -/
def b64Char (n : Nat) : Char :=
  "ABCDEFGHIJKLMNOPQRSTUVWXYZabcdefghijklmnopqrstuvwxyz0123456789+/".data.getD n '?'

/-- Value of a standard-alphabet base64 character; `none` for other
characters, which Node's decoder skips. -/
def b64CharVal (c : Char) : Option Nat :=
  if 'A' ≤ c ∧ c ≤ 'Z' then some (c.toNat - 65)
  else if 'a' ≤ c ∧ c ≤ 'z' then some (c.toNat - 97 + 26)
  else if '0' ≤ c ∧ c ≤ '9' then some (c.toNat - 48 + 52)
  else if c = '+' then some 62
  else if c = '/' then some 63
  else none

/-- Standard padded base64 encoding (`buffer.toString('base64')`). -/
def b64EncodeChunks : List Nat → List Char
  | [] => []
  | [a] => [b64Char (a / 4), b64Char (a % 4 * 16), '=', '=']
  | [a, b] => [b64Char (a / 4), b64Char (a % 4 * 16 + b / 16), b64Char (b % 16 * 4), '=']
  | a :: b :: c :: rest =>
      b64Char (a / 4) :: b64Char (a % 4 * 16 + b / 16) :: b64Char (b % 16 * 4 + c / 64)
        :: b64Char (c % 64) :: b64EncodeChunks rest

/-- Replace `+` by `-` and the slash by `_` in one character, as the two
global regex replacements of `toBase64Url` do. -/
def urlSafeChar (c : Char) : Char :=
  if c = '+' then '-' else if c = '/' then '_' else c

/-- Replace `-` by `+` and `_` by the slash in one character, as the two
global regex replacements of `fromBase64Url` do. -/
def normalizeUrlChar (c : Char) : Char :=
  if c = '-' then '+' else if c = '_' then '/' else c

/-- Strip trailing `=` characters, as the final regex replacement of
`toBase64Url` does. -/
def dropTrailingEq (cs : List Char) : List Char :=
  (cs.reverse.dropWhile (· = '=')).reverse

/-- `toBase64Url` of `src/lib/session.ts` on a byte buffer. -/
def toBase64Url (bytes : List Nat) : String :=
  String.mk (dropTrailingEq ((b64EncodeChunks bytes).map urlSafeChar))

/-- `toBase64Url` applied to a string (the `Buffer.from(value, 'utf8')`
branch of the source helper). -/
def toBase64UrlStr (s : String) : String := toBase64Url (strUtf8 s)

/-- Sextet groups to bytes, as Node's base64 decoder combines them
(a trailing single sextet is dropped). -/
def nodeB64Decode4 : List Nat → List Nat
  | s0 :: s1 :: s2 :: s3 :: rest =>
      (s0 * 4 + s1 / 16) :: (s1 % 16 * 16 + s2 / 4) :: (s2 % 4 * 64 + s3)
        :: nodeB64Decode4 rest
  | [s0, s1, s2] => [s0 * 4 + s1 / 16, s1 % 16 * 16 + s2 / 4]
  | [s0, s1] => [s0 * 4 + s1 / 16]
  | _ => []

/-- `Buffer.from(chars, 'base64')`: decode up to the first `=`, skipping
characters outside the alphabet. -/
def nodeB64Decode (cs : List Char) : List Nat :=
  nodeB64Decode4 ((cs.takeWhile (· ≠ '=')).filterMap b64CharVal)

/-- `fromBase64Url` of `src/lib/session.ts` on a character list: restore
`+` and `/`, re-add padding, and base64-decode. -/
def fromB64UrlChars (cs : List Char) : List Nat :=
  let normalized := cs.map normalizeUrlChar
  let padLen := (4 - normalized.length % 4) % 4
  nodeB64Decode (normalized ++ List.replicate padLen '=')

/-- `fromBase64Url` of `src/lib/session.ts`. -/
def fromBase64Url (s : String) : List Nat := fromB64UrlChars s.data

theorem b64Char_props : ∀ n, n < 64 →
    b64CharVal (b64Char n) = some n ∧ b64Char n ≠ '=' ∧
    urlSafeChar (b64Char n) ≠ '=' ∧ urlSafeChar (b64Char n) ≠ '.' ∧
    normalizeUrlChar (urlSafeChar (b64Char n)) = b64Char n := by decide

theorem dropWhile_eq_self_of_ne (l : List Char) (h : ∀ c ∈ l, c ≠ '=') :
    l.dropWhile (· = '=') = l := by
  cases l with
  | nil => rfl
  | cons c t =>
    have : c ≠ '=' := h c (by simp)
    simp [List.dropWhile_cons, this]

theorem dropTrailingEq_append (xs ys : List Char) (h : ∀ c ∈ xs, c ≠ '=') :
    dropTrailingEq (xs ++ ys) = xs ++ dropTrailingEq ys := by
  unfold dropTrailingEq
  rw [List.reverse_append, List.dropWhile_append]
  split
  · next hemp =>
    have hys : (ys.reverse.dropWhile (· = '=')) = [] := by
      simpa [List.isEmpty_iff] using hemp
    rw [hys, dropWhile_eq_self_of_ne _ (by simpa using h)]
    simp
  · rw [List.reverse_append]
    simp

theorem takeWhile_append_pad (l : List Char) (n : Nat) :
    ((l ++ List.replicate n '=').takeWhile (· ≠ '=')) = l.takeWhile (· ≠ '=') := by
  induction l with
  | nil =>
    cases n with
    | zero => simp
    | succ m => simp [List.replicate, List.takeWhile_cons]
  | cons c t ih =>
    by_cases hc : c = '='
    · simp [hc, List.takeWhile_cons]
    · simp only [List.takeWhile_cons, List.cons_append]
      rw [if_pos (by simp [hc]), if_pos (by simp [hc])]
      rw [ih]

/-- The `=`-padding re-added by `fromBase64Url` is ignored by the decoder. -/
theorem fromB64UrlChars_eq (cs : List Char) :
    fromB64UrlChars cs =
      nodeB64Decode4 (((cs.map normalizeUrlChar).takeWhile (· ≠ '=')).filterMap b64CharVal) := by
  unfold fromB64UrlChars nodeB64Decode
  simp only []
  rw [takeWhile_append_pad]

/-- The sextet stream recovered by the decoding pipeline. -/
def sextets (cs : List Char) : List Nat :=
  ((cs.map normalizeUrlChar).takeWhile (· ≠ '=')).filterMap b64CharVal

theorem fromB64UrlChars_eq_sextets (cs : List Char) :
    fromB64UrlChars cs = nodeB64Decode4 (sextets cs) :=
  fromB64UrlChars_eq cs

theorem sextets_cons (n : Nat) (hn : n < 64) (vs : List Char) :
    sextets (urlSafeChar (b64Char n) :: vs) = n :: sextets vs := by
  obtain ⟨hval, hne, hune, hudot, hnorm⟩ := b64Char_props n hn
  simp only [sextets, List.map_cons, hnorm, List.takeWhile_cons]
  rw [if_pos (by simp [hne])]
  simp [List.filterMap_cons, hval]

theorem sextets_nil : sextets [] = [] := rfl

theorem urlSafeChar_eqsign : urlSafeChar '=' = '=' := by decide

theorem dropTrailingEq_eqs : dropTrailingEq ['=', '='] = [] := by decide

theorem dropTrailingEq_eq1 : dropTrailingEq ['='] = [] := by decide

theorem dropTrailingEq_nil : dropTrailingEq [] = [] := rfl

theorem decodePipeline_encode (bytes : List Nat) (h : ∀ x ∈ bytes, x < 256) :
    fromB64UrlChars (dropTrailingEq ((b64EncodeChunks bytes).map urlSafeChar)) = bytes := by
  rw [fromB64UrlChars_eq_sextets]
  induction bytes using b64EncodeChunks.induct with
  | case1 =>
    simp [b64EncodeChunks, dropTrailingEq_nil, sextets_nil, nodeB64Decode4]
  | case2 a =>
    have ha : a < 256 := h a (by simp)
    have h0 : a / 4 < 64 := by omega
    have h1 : a % 4 * 16 < 64 := by omega
    have hx0 := (b64Char_props _ h0).2.2.1
    have hx1 := (b64Char_props _ h1).2.2.1
    rw [show b64EncodeChunks [a] =
        [b64Char (a / 4), b64Char (a % 4 * 16), '=', '='] from rfl]
    rw [show (([b64Char (a / 4), b64Char (a % 4 * 16), '=', '=']).map urlSafeChar) =
        [urlSafeChar (b64Char (a / 4)), urlSafeChar (b64Char (a % 4 * 16))] ++ ['=', '='] by
      simp [urlSafeChar_eqsign]]
    rw [dropTrailingEq_append _ _ (by
      intro c hc
      simp only [List.mem_cons, List.not_mem_nil, or_false] at hc
      rcases hc with rfl | rfl
      exacts [hx0, hx1])]
    rw [dropTrailingEq_eqs]
    simp only [List.append_nil, List.cons_append, List.nil_append]
    rw [sextets_cons _ h0, sextets_cons _ h1, sextets_nil]
    show nodeB64Decode4 [a / 4, a % 4 * 16] = [a]
    rw [show nodeB64Decode4 [a / 4, a % 4 * 16] = [a / 4 * 4 + a % 4 * 16 / 16] from rfl]
    congr 1
    omega
  | case3 a b =>
    have ha : a < 256 := h a (by simp)
    have hb : b < 256 := h b (by simp)
    have h0 : a / 4 < 64 := by omega
    have h1 : a % 4 * 16 + b / 16 < 64 := by omega
    have h2 : b % 16 * 4 < 64 := by omega
    have hx0 := (b64Char_props _ h0).2.2.1
    have hx1 := (b64Char_props _ h1).2.2.1
    have hx2 := (b64Char_props _ h2).2.2.1
    rw [show b64EncodeChunks [a, b] =
        [b64Char (a / 4), b64Char (a % 4 * 16 + b / 16), b64Char (b % 16 * 4), '='] from rfl]
    rw [show (([b64Char (a / 4), b64Char (a % 4 * 16 + b / 16), b64Char (b % 16 * 4), '=']).map
          urlSafeChar) =
        [urlSafeChar (b64Char (a / 4)), urlSafeChar (b64Char (a % 4 * 16 + b / 16)),
          urlSafeChar (b64Char (b % 16 * 4))] ++ ['='] by
      simp [urlSafeChar_eqsign]]
    rw [dropTrailingEq_append _ _ (by
      intro c hc
      simp only [List.mem_cons, List.not_mem_nil, or_false] at hc
      rcases hc with rfl | rfl | rfl
      exacts [hx0, hx1, hx2])]
    rw [dropTrailingEq_eq1]
    simp only [List.append_nil, List.cons_append, List.nil_append]
    rw [sextets_cons _ h0, sextets_cons _ h1, sextets_cons _ h2, sextets_nil]
    show nodeB64Decode4 [a / 4, a % 4 * 16 + b / 16, b % 16 * 4] = [a, b]
    rw [show nodeB64Decode4 [a / 4, a % 4 * 16 + b / 16, b % 16 * 4] =
        [a / 4 * 4 + (a % 4 * 16 + b / 16) / 16,
         (a % 4 * 16 + b / 16) % 16 * 16 + b % 16 * 4 / 4] from rfl]
    congr 1
    · omega
    congr 1
    omega
  | case4 a b c rest ih =>
    have ha : a < 256 := h a (by simp)
    have hb : b < 256 := h b (by simp)
    have hc : c < 256 := h c (by simp)
    have h0 : a / 4 < 64 := by omega
    have h1 : a % 4 * 16 + b / 16 < 64 := by omega
    have h2 : b % 16 * 4 + c / 64 < 64 := by omega
    have h3 : c % 64 < 64 := by omega
    have hx0 := (b64Char_props _ h0).2.2.1
    have hx1 := (b64Char_props _ h1).2.2.1
    have hx2 := (b64Char_props _ h2).2.2.1
    have hx3 := (b64Char_props _ h3).2.2.1
    rw [show b64EncodeChunks (a :: b :: c :: rest) =
        [b64Char (a / 4), b64Char (a % 4 * 16 + b / 16), b64Char (b % 16 * 4 + c / 64),
          b64Char (c % 64)] ++ b64EncodeChunks rest from rfl]
    rw [List.map_append]
    rw [dropTrailingEq_append _ _ (by
      intro x hx
      simp only [List.map_cons, List.map_nil, List.mem_cons, List.not_mem_nil, or_false] at hx
      rcases hx with rfl | rfl | rfl | rfl
      exacts [hx0, hx1, hx2, hx3])]
    simp only [List.map_cons, List.map_nil, List.cons_append, List.nil_append]
    rw [sextets_cons _ h0, sextets_cons _ h1, sextets_cons _ h2, sextets_cons _ h3]
    rw [show ∀ s0 s1 s2 s3 t, nodeB64Decode4 (s0 :: s1 :: s2 :: s3 :: t) =
        (s0 * 4 + s1 / 16) :: (s1 % 16 * 16 + s2 / 4) :: (s2 % 4 * 64 + s3)
          :: nodeB64Decode4 t from fun _ _ _ _ _ => rfl]
    rw [ih (fun x hx => h x (by simp [hx]))]
    congr 1
    · omega
    congr 1
    · omega
    congr 1
    omega

/-- `fromBase64Url` inverts `toBase64Url` on byte buffers. -/
theorem fromBase64Url_toBase64Url (bytes : List Nat) (h : ∀ x ∈ bytes, x < 256) :
    fromBase64Url (toBase64Url bytes) = bytes := by
  rw [fromBase64Url, toBase64Url]
  exact decodePipeline_encode bytes h

theorem mem_b64EncodeChunks (bytes : List Nat) (h : ∀ x ∈ bytes, x < 256) :
    ∀ ch ∈ b64EncodeChunks bytes, (∃ n, n < 64 ∧ ch = b64Char n) ∨ ch = '=' := by
  induction bytes using b64EncodeChunks.induct with
  | case1 => simp [b64EncodeChunks]
  | case2 a =>
    have ha : a < 256 := h a (by simp)
    intro ch hch
    rw [show b64EncodeChunks [a] =
        [b64Char (a / 4), b64Char (a % 4 * 16), '=', '='] from rfl] at hch
    simp only [List.mem_cons, List.not_mem_nil, or_false] at hch
    rcases hch with rfl | rfl | rfl | rfl
    · exact .inl ⟨a / 4, by omega, rfl⟩
    · exact .inl ⟨a % 4 * 16, by omega, rfl⟩
    · exact .inr rfl
    · exact .inr rfl
  | case3 a b =>
    have ha : a < 256 := h a (by simp)
    have hb : b < 256 := h b (by simp)
    intro ch hch
    rw [show b64EncodeChunks [a, b] =
        [b64Char (a / 4), b64Char (a % 4 * 16 + b / 16), b64Char (b % 16 * 4), '='] from
        rfl] at hch
    simp only [List.mem_cons, List.not_mem_nil, or_false] at hch
    rcases hch with rfl | rfl | rfl | rfl
    · exact .inl ⟨a / 4, by omega, rfl⟩
    · exact .inl ⟨a % 4 * 16 + b / 16, by omega, rfl⟩
    · exact .inl ⟨b % 16 * 4, by omega, rfl⟩
    · exact .inr rfl
  | case4 a b c rest ih =>
    have ha : a < 256 := h a (by simp)
    have hb : b < 256 := h b (by simp)
    have hc : c < 256 := h c (by simp)
    intro ch hch
    rw [show b64EncodeChunks (a :: b :: c :: rest) =
        [b64Char (a / 4), b64Char (a % 4 * 16 + b / 16), b64Char (b % 16 * 4 + c / 64),
          b64Char (c % 64)] ++ b64EncodeChunks rest from rfl] at hch
    rw [List.mem_append] at hch
    rcases hch with hch | hch
    · simp only [List.mem_cons, List.not_mem_nil, or_false] at hch
      rcases hch with rfl | rfl | rfl | rfl
      · exact .inl ⟨a / 4, by omega, rfl⟩
      · exact .inl ⟨a % 4 * 16 + b / 16, by omega, rfl⟩
      · exact .inl ⟨b % 16 * 4 + c / 64, by omega, rfl⟩
      · exact .inl ⟨c % 64, by omega, rfl⟩
    · exact ih (fun x hx => h x (by simp [hx])) ch hch

/-- No character of a base64url token is a `.` (so the `.` separator of a
session token is unambiguous). -/
theorem toBase64Url_no_dot (bytes : List Nat) (h : ∀ x ∈ bytes, x < 256) :
    ∀ ch ∈ (toBase64Url bytes).data, ch ≠ '.' := by
  intro ch hch
  have hmem : ch ∈ (b64EncodeChunks bytes).map urlSafeChar := by
    have h1 : ch ∈ dropTrailingEq ((b64EncodeChunks bytes).map urlSafeChar) := hch
    unfold dropTrailingEq at h1
    rw [List.mem_reverse] at h1
    have := (List.dropWhile_sublist (l := ((b64EncodeChunks bytes).map urlSafeChar).reverse)
      (fun x => decide (x = '='))).mem h1
    rwa [List.mem_reverse] at this
  rw [List.mem_map] at hmem
  obtain ⟨x, hx, rfl⟩ := hmem
  rcases mem_b64EncodeChunks bytes h x hx with ⟨n, hn, rfl⟩ | rfl
  · exact (b64Char_props n hn).2.2.2.1
  · decide

/-! ## `String.prototype.lastIndexOf('.')` -/

/-- Index of the last `.` in a character list (`none` models `-1`). -/
def lastIndexOfDot : List Char → Option Nat
  | [] => none
  | c :: rest =>
    match lastIndexOfDot rest with
    | some i => some (i + 1)
    | none => if c = '.' then some 0 else none

theorem lastIndexOfDot_of_no_dot (cs : List Char) (h : ∀ c ∈ cs, c ≠ '.') :
    lastIndexOfDot cs = none := by
  induction cs with
  | nil => rfl
  | cons c rest ih =>
    have hc : c ≠ '.' := h c (by simp)
    rw [lastIndexOfDot, ih (fun x hx => h x (by simp [hx]))]
    simp [hc]

theorem lastIndexOfDot_sep (payload sig : List Char)
    (hp : ∀ c ∈ payload, c ≠ '.') (hs : ∀ c ∈ sig, c ≠ '.') :
    lastIndexOfDot (payload ++ '.' :: sig) = some payload.length := by
  induction payload with
  | nil =>
    rw [List.nil_append, lastIndexOfDot, lastIndexOfDot_of_no_dot sig hs]
    simp
  | cons c rest ih =>
    rw [List.cons_append, lastIndexOfDot,
      ih (fun x hx => hp x (by simp [hx]))]
    simp

/-! ## JSON (`JSON.parse` / `JSON.stringify`), modelled from ECMA-404.
Lone surrogates in `\u` escapes are replaced by U+FFFD since Lean characters
are Unicode scalar values; no claim exercises that corner. -/

/-- JSON values. Numbers keep their raw source text, which suffices for the
session decoder (it only inspects a boolean field). -/
inductive Json where
  | null
  | bool (b : Bool)
  | num (raw : String)
  | str (s : String)
  | arr (xs : List Json)
  | obj (fields : List (String × Json))

/-- An opening curly brace character. -/
def lbrace : Char := Char.ofNat 123

/-- A closing curly brace character. -/
def rbrace : Char := Char.ofNat 125

/-- Skip JSON whitespace. -/
def skipWs (cs : List Char) : List Char :=
  cs.dropWhile (fun c => c = ' ' ∨ c = '\t' ∨ c = '\n' ∨ c = '\r')

/-- Hexadecimal digit value. -/
def hexDigitVal (c : Char) : Option Nat :=
  if '0' ≤ c ∧ c ≤ '9' then some (c.toNat - 48)
  else if 'a' ≤ c ∧ c ≤ 'f' then some (c.toNat - 97 + 10)
  else if 'A' ≤ c ∧ c ≤ 'F' then some (c.toNat - 65 + 10)
  else none

/-- Parse the body of a JSON string after the opening quote; returns the
decoded characters and the input after the closing quote. -/
def parseJsonStringBody : Nat → List Char → Option (List Char × List Char)
  | 0, _ => none
  | _ + 1, [] => none
  | f + 1, c :: r =>
    if c = '"' then some ([], r)
    else if c = '\\' then
      match r with
      | [] => none
      | e :: r1 =>
        let simpleEsc : Option Char :=
          if e = '"' then some '"'
          else if e = '\\' then some '\\'
          else if e = '/' then some '/'
          else if e = 'b' then some (Char.ofNat 8)
          else if e = 'f' then some (Char.ofNat 12)
          else if e = 'n' then some '\n'
          else if e = 'r' then some '\r'
          else if e = 't' then some '\t'
          else none
        match simpleEsc with
        | some ch =>
          match parseJsonStringBody f r1 with
          | some (cs, rest) => some (ch :: cs, rest)
          | none => none
        | none =>
          if e = 'u' then
            match r1 with
            | h1 :: h2 :: h3 :: h4 :: r2 =>
              match hexDigitVal h1, hexDigitVal h2, hexDigitVal h3, hexDigitVal h4 with
              | some v1, some v2, some v3, some v4 =>
                let code := v1 * 4096 + v2 * 256 + v3 * 16 + v4
                let ch := if 0xD800 ≤ code ∧ code < 0xE000 then replChar else Char.ofNat code
                match parseJsonStringBody f r2 with
                | some (cs, rest) => some (ch :: cs, rest)
                | none => none
              | _, _, _, _ => none
            | _ => none
          else none
    else if c.toNat < 0x20 then none
    else
      match parseJsonStringBody f r with
      | some (cs, rest) => some (c :: cs, rest)
      | none => none

/-- Parse the integer part of a JSON number (sign already handled). -/
def parseJsonInt (cs : List Char) : Option (List Char × List Char) :=
  match cs with
  | '0' :: r =>
    match r with
    | d :: _ => if d.isDigit then none else some (['0'], r)
    | [] => some (['0'], [])
  | d :: _ =>
    if d.isDigit then some (cs.takeWhile Char.isDigit, cs.dropWhile Char.isDigit)
    else none
  | [] => none

/-- Parse an optional JSON fraction part. -/
def parseJsonFrac (cs : List Char) : Option (List Char × List Char) :=
  match cs with
  | '.' :: r =>
    let ds := r.takeWhile Char.isDigit
    if ds.isEmpty then none else some ('.' :: ds, r.dropWhile Char.isDigit)
  | _ => some ([], cs)

/-- Parse an optional JSON exponent part. -/
def parseJsonExp (cs : List Char) : Option (List Char × List Char) :=
  match cs with
  | e :: r =>
    if e = 'e' ∨ e = 'E' then
      let (sgn, r1) : List Char × List Char :=
        match r with
        | s :: r' => if s = '+' ∨ s = '-' then ([s], r') else ([], r)
        | [] => ([], [])
      let ds := r1.takeWhile Char.isDigit
      if ds.isEmpty then none else some (e :: (sgn ++ ds), r1.dropWhile Char.isDigit)
    else some ([], e :: r)
  | [] => some ([], [])

/-- Parse a JSON number starting at the given characters. -/
def parseJsonNumberFrom (cs : List Char) : Option (List Char × List Char) :=
  let (sgn, cs1) : List Char × List Char :=
    match cs with
    | '-' :: r => (['-'], r)
    | _ => ([], cs)
  match parseJsonInt cs1 with
  | none => none
  | some (ip, r1) =>
    match parseJsonFrac r1 with
    | none => none
    | some (fp, r2) =>
      match parseJsonExp r2 with
      | none => none
      | some (ep, r3) => some (sgn ++ ip ++ fp ++ ep, r3)

mutual

/-- Parse one JSON value (leading whitespace allowed). -/
def parseJsonValue : Nat → List Char → Option (Json × List Char)
  | 0, _ => none
  | f + 1, cs =>
    match skipWs cs with
    | 'n' :: 'u' :: 'l' :: 'l' :: r => some (.null, r)
    | 't' :: 'r' :: 'u' :: 'e' :: r => some (.bool true, r)
    | 'f' :: 'a' :: 'l' :: 's' :: 'e' :: r => some (.bool false, r)
    | '"' :: r =>
      match parseJsonStringBody (r.length + 1) r with
      | some (cs', rest) => some (.str (String.mk cs'), rest)
      | none => none
    | '[' :: r => parseJsonArray f r
    | c :: r =>
      if c = lbrace then parseJsonObject f r
      else if c = '-' ∨ c.isDigit then
        match parseJsonNumberFrom (c :: r) with
        | some (raw, rest) => some (.num (String.mk raw), rest)
        | none => none
      else none
    | [] => none

/-- Parse the inside of a JSON array after the opening bracket. -/
def parseJsonArray : Nat → List Char → Option (Json × List Char)
  | 0, _ => none
  | f + 1, cs =>
    match skipWs cs with
    | ']' :: r => some (.arr [], r)
    | _ =>
      match parseJsonArrayElems f cs with
      | some (vs, rest) => some (.arr vs, rest)
      | none => none

/-- Parse one or more comma-separated array elements up to `]`. -/
def parseJsonArrayElems : Nat → List Char → Option (List Json × List Char)
  | 0, _ => none
  | f + 1, cs =>
    match parseJsonValue f cs with
    | none => none
    | some (v, r) =>
      match skipWs r with
      | ',' :: r' =>
        match parseJsonArrayElems f r' with
        | some (vs, rest) => some (v :: vs, rest)
        | none => none
      | ']' :: r' => some ([v], r')
      | _ => none

/-- Parse the inside of a JSON object after the opening brace. -/
def parseJsonObject : Nat → List Char → Option (Json × List Char)
  | 0, _ => none
  | f + 1, cs =>
    match skipWs cs with
    | c :: r =>
      if c = rbrace then some (.obj [], r)
      else
        match parseJsonObjectFields f cs with
        | some (fs, rest) => some (.obj fs, rest)
        | none => none
    | [] => none

/-- Parse one or more `"key": value` members up to the closing brace. -/
def parseJsonObjectFields : Nat → List Char → Option (List (String × Json) × List Char)
  | 0, _ => none
  | f + 1, cs =>
    match skipWs cs with
    | '"' :: r =>
      match parseJsonStringBody (r.length + 1) r with
      | none => none
      | some (key, r1) =>
        match skipWs r1 with
        | ':' :: r2 =>
          match parseJsonValue f r2 with
          | none => none
          | some (v, r3) =>
            match skipWs r3 with
            | ',' :: r4 =>
              match parseJsonObjectFields f r4 with
              | some (fs, rest) => some ((String.mk key, v) :: fs, rest)
              | none => none
            | c :: r4 =>
              if c = rbrace then some ([(String.mk key, v)], r4) else none
            | [] => none
        | _ => none
    | _ => none

end

/-- `JSON.parse`: parse a complete JSON document (trailing whitespace only). -/
def jsonParse (s : String) : Option Json :=
  match parseJsonValue (4 * s.data.length + 4) s.data with
  | some (v, rest) => if (skipWs rest).isEmpty then some v else none
  | none => none

/-- Last-wins lookup of an object member, as `JSON.parse` object semantics
and JS property access give. -/
def jsonObjLookup (fields : List (String × Json)) (k : String) : Option Json :=
  fields.foldl (fun acc p => if p.1 = k then some p.2 else acc) none

/-- The `parsed?.isAdmin === true` check of `decodeSession`: only an object
whose `isAdmin` member is exactly `true` passes. -/
def jsonIsAdminTrue : Json → Bool
  | .obj fields =>
    match jsonObjLookup fields "isAdmin" with
    | some (.bool true) => true
    | _ => false
  | _ => false

/-! ## `encodeURIComponent` (ECMA-262) and `encodeRfc3986` of `src/lib/r2.ts` -/

/-- Characters `encodeURIComponent` leaves unescaped. -/
def isUriUnreserved (c : Char) : Bool :=
  c.isAlpha ∨ c.isDigit ∨ c = '-' ∨ c = '_' ∨ c = '.' ∨ c = '!' ∨ c = '~' ∨
    c = '*' ∨ c = '\'' ∨ c = '(' ∨ c = ')'

/-- Uppercase hexadecimal digit. -/
def hexUpperChar (n : Nat) : Char := "0123456789ABCDEF".data.getD n '?'

/-- `%HH` escape of one byte, uppercase as `encodeURIComponent` emits. -/
def percentByte (b : Nat) : List Char := ['%', hexUpperChar (b / 16), hexUpperChar (b % 16)]

/-- `encodeURIComponent` on one character. -/
def encodeURIComponentChar (c : Char) : List Char :=
  if isUriUnreserved c then [c] else (utf8EncodeChar c).flatMap percentByte

/-- `encodeURIComponent` (ECMA-262). -/
def encodeURIComponent (s : String) : String :=
  String.mk (s.data.flatMap encodeURIComponentChar)

/-- The second pass of `encodeRfc3986`: escape `!`, `'`, `(`, `)`, `*`
with their uppercase char-code escapes. -/
def bangEscapeChar (c : Char) : List Char :=
  if c = '!' ∨ c = '\'' ∨ c = '(' ∨ c = ')' ∨ c = '*' then percentByte c.toNat
  else [c]

/-- `encodeRfc3986` of `src/lib/r2.ts`: `encodeURIComponent` followed by
escaping `!`, `'`, `(`, `)`, `*`. -/
def encodeRfc3986 (value : String) : String :=
  String.mk ((encodeURIComponent value).data.flatMap bangEscapeChar)

/-- The RFC 3986 unreserved set actually left unescaped by `encodeRfc3986`. -/
def isRfcUnreserved (c : Char) : Bool :=
  c.isAlpha ∨ c.isDigit ∨ c = '-' ∨ c = '_' ∨ c = '.' ∨ c = '~'

/-- Single-pass per-character view of `encodeRfc3986`. -/
def rfcChar (c : Char) : List Char :=
  if isRfcUnreserved c then [c] else (utf8EncodeChar c).flatMap percentByte

theorem hexDigitVal_hexUpperChar : ∀ n, n < 16 → hexDigitVal (hexUpperChar n) = some n := by
  decide

theorem bangEscapeChar_percent : bangEscapeChar '%' = ['%'] := by decide

theorem bangEscapeChar_hex (n : Nat) (h : n < 16) :
    bangEscapeChar (hexUpperChar n) = [hexUpperChar n] := by
  revert h
  revert n
  decide

theorem bangEscape_percentByte (b : Nat) (h : b < 256) :
    (percentByte b).flatMap bangEscapeChar = percentByte b := by
  have h1 : b / 16 < 16 := by omega
  have h2 : b % 16 < 16 := by omega
  simp [percentByte, bangEscapeChar_percent, bangEscapeChar_hex _ h1,
    bangEscapeChar_hex _ h2]

theorem bangEscape_percentFlat (bytes : List Nat) (h : ∀ b ∈ bytes, b < 256) :
    (bytes.flatMap percentByte).flatMap bangEscapeChar = bytes.flatMap percentByte := by
  induction bytes with
  | nil => rfl
  | cons b rest ih =>
    rw [List.flatMap_cons, List.flatMap_append,
      bangEscape_percentByte b (h b (by simp)),
      ih (fun x hx => h x (by simp [hx]))]

theorem rfc_implies_uri (c : Char) (h : isRfcUnreserved c) : isUriUnreserved c := by
  simp only [isRfcUnreserved, decide_eq_true_eq] at h
  simp only [isUriUnreserved, decide_eq_true_eq]
  tauto

theorem encodeURIComponentChar_bang (c : Char) :
    (encodeURIComponentChar c).flatMap bangEscapeChar = rfcChar c := by
  by_cases hu : isUriUnreserved c
  · by_cases hb : c = '!' ∨ c = '\'' ∨ c = '(' ∨ c = ')' ∨ c = '*'
    · rcases hb with rfl | rfl | rfl | rfl | rfl <;> decide
    · have hrfc : isRfcUnreserved c := by
        simp only [isUriUnreserved, decide_eq_true_eq] at hu
        simp only [isRfcUnreserved, decide_eq_true_eq]
        tauto
      rw [encodeURIComponentChar, if_pos hu, rfcChar, if_pos hrfc]
      simp [bangEscapeChar, hb]
  · have hrfc : ¬ (isRfcUnreserved c = true) := fun h => hu (rfc_implies_uri c h)
    rw [encodeURIComponentChar, if_neg hu, rfcChar, if_neg hrfc]
    exact bangEscape_percentFlat _ (utf8EncodeChar_lt c)

/-- `encodeRfc3986` agrees with the single-pass `rfcChar` encoder. -/
theorem encodeRfc3986_eq_rfc (s : String) :
    encodeRfc3986 s = String.mk (s.data.flatMap rfcChar) := by
  rw [encodeRfc3986, encodeURIComponent]
  congr 1
  induction s.data with
  | nil => rfl
  | cons c rest ih =>
    rw [List.flatMap_cons, List.flatMap_append, encodeURIComponentChar_bang,
      List.flatMap_cons, ih]

/-- Decode a percent-encoded string back to bytes (plain characters
contribute their UTF-8 bytes); analysis tool to show injectivity. -/
def pdecodeBytes : List Char → Option (List Nat)
  | [] => some []
  | c :: rest =>
    if c = '%' then
      match rest with
      | h :: rest1 =>
        match rest1 with
        | l :: r2 =>
          match hexDigitVal h, hexDigitVal l with
          | some hv, some lv => (pdecodeBytes r2).map (fun bs => (hv * 16 + lv) :: bs)
          | _, _ => none
        | [] => none
      | [] => none
    else (pdecodeBytes rest).map (fun bs => utf8EncodeChar c ++ bs)

theorem pdecodeBytes_percentByte (b : Nat) (h : b < 256) (rest : List Char) :
    pdecodeBytes (percentByte b ++ rest) = (pdecodeBytes rest).map (fun bs => b :: bs) := by
  have h1 : b / 16 < 16 := by omega
  have h2 : b % 16 < 16 := by omega
  rw [percentByte]
  show pdecodeBytes ('%' :: hexUpperChar (b / 16) :: hexUpperChar (b % 16) :: rest) = _
  rw [pdecodeBytes]
  rw [if_pos rfl]
  rw [hexDigitVal_hexUpperChar _ h1, hexDigitVal_hexUpperChar _ h2]
  show Option.map (fun bs => (b / 16 * 16 + b % 16) :: bs) (pdecodeBytes rest) = _
  have hb : b / 16 * 16 + b % 16 = b := by omega
  rw [hb]

theorem pdecodeBytes_percentFlat (bytes : List Nat) (h : ∀ b ∈ bytes, b < 256)
    (rest : List Char) :
    pdecodeBytes (bytes.flatMap percentByte ++ rest) =
      (pdecodeBytes rest).map (fun bs => bytes ++ bs) := by
  induction bytes with
  | nil =>
    simp
  | cons b t ih =>
    rw [List.flatMap_cons, List.append_assoc,
      pdecodeBytes_percentByte b (h b (by simp)),
      ih (fun x hx => h x (by simp [hx]))]
    rw [Option.map_map]
    rfl

theorem isRfcUnreserved_ne_percent (c : Char) (h : isRfcUnreserved c) : c ≠ '%' := by
  intro heq
  rw [heq] at h
  simp [isRfcUnreserved] at h

theorem pdecodeBytes_cons_ne (c : Char) (hne : c ≠ '%') (rest : List Char) :
    pdecodeBytes (c :: rest) =
      (pdecodeBytes rest).map (fun bs => utf8EncodeChar c ++ bs) := by
  conv_lhs => rw [pdecodeBytes.eq_def]
  simp [hne]

/-- The percent decoder recovers the UTF-8 bytes of an `rfcChar`-encoded
string. -/
theorem pdecodeBytes_rfc (cs : List Char) :
    pdecodeBytes (cs.flatMap rfcChar) = some (utf8Encode cs) := by
  induction cs with
  | nil => rfl
  | cons c rest ih =>
    rw [List.flatMap_cons]
    by_cases hr : isRfcUnreserved c
    · rw [rfcChar, if_pos hr, List.cons_append, List.nil_append,
        pdecodeBytes_cons_ne c (isRfcUnreserved_ne_percent c hr), ih]
      rw [utf8Encode]
      rfl
    · rw [rfcChar, if_neg hr,
        pdecodeBytes_percentFlat _ (utf8EncodeChar_lt c) _, ih]
      rw [utf8Encode]
      rfl

/-- `encodeRfc3986` is injective, so distinct query keys stay distinct after
encoding. -/
theorem encodeRfc3986_injective : Function.Injective encodeRfc3986 := by
  intro a b hab
  rw [encodeRfc3986_eq_rfc, encodeRfc3986_eq_rfc] at hab
  have hdata : a.data.flatMap rfcChar = b.data.flatMap rfcChar := by
    have := congrArg String.data hab
    simpa using this
  have h2 : some (utf8Encode a.data) = some (utf8Encode b.data) := by
    rw [← pdecodeBytes_rfc, ← pdecodeBytes_rfc, hdata]
  have h3 : a.data = b.data := utf8Encode_injective (Option.some.inj h2)
  cases a with
  | mk da =>
    cases b with
    | mk db => exact congrArg String.mk (by simpa using h3)

/-! ## JS plain objects (`Record<string, string>`) as insertion-ordered maps -/

/-- `obj[k] = v` on a JS object: overwrite in place, or append a new key. -/
def jsSet (r : List (String × String)) (k v : String) : List (String × String) :=
  if r.any (fun p => p.1 = k) then r.map (fun p => if p.1 = k then (k, v) else p)
  else r ++ [(k, v)]

/-- Assign a sequence of entries in order (`for ... of Object.entries`). -/
def jsSetMany (r : List (String × String)) (es : List (String × String)) :
    List (String × String) :=
  es.foldl (fun acc p => jsSet acc p.1 p.2) r

/-- Read `obj[k]`. -/
def jsGet (r : List (String × String)) (k : String) : Option String :=
  (r.find? (fun p => p.1 = k)).map Prod.snd

/-- Value of the last entry with the given key, if any. -/
def lookupLast : List (String × String) → String → Option String
  | [], _ => none
  | p :: es, k =>
    match lookupLast es k with
    | some v => some v
    | none => if p.1 = k then some p.2 else none

theorem jsGet_jsSet_same (r : List (String × String)) (k v : String) :
    jsGet (jsSet r k v) k = some v := by
  induction r with
  | nil => simp [jsSet, jsGet]
  | cons p r' ih =>
    by_cases hp : p.1 = k
    · simp [jsSet, jsGet, hp]
    · rw [jsSet]
      by_cases ha : r'.any (fun q => q.1 = k)
      · rw [if_pos (by simp [List.any_cons, ha])]
        rw [List.map_cons, if_neg hp, jsGet,
          List.find?_cons_of_neg _ (by simp [hp])]
        have := ih
        rw [jsSet, if_pos ha, jsGet] at this
        exact this
      · rw [if_neg (by simp [List.any_cons, hp, ha])]
        rw [List.cons_append, jsGet, List.find?_cons_of_neg _ (by simp [hp])]
        have := ih
        rw [jsSet, if_neg ha, jsGet] at this
        exact this

theorem jsGet_jsSet_other (r : List (String × String)) (k v k' : String) (hk : k' ≠ k) :
    jsGet (jsSet r k v) k' = jsGet r k' := by
  induction r with
  | nil =>
    simp [jsSet, jsGet]
    exact fun h => hk h.symm
  | cons p r' ih =>
    rw [jsSet]
    by_cases ha : (p :: r').any (fun q => q.1 = k)
    · rw [if_pos ha, List.map_cons]
      by_cases hp : p.1 = k
      · rw [if_pos hp, jsGet, List.find?_cons_of_neg _ (by simpa using Ne.symm hk),
          jsGet, List.find?_cons_of_neg _ (by simp [hp]; exact Ne.symm hk)]
        by_cases ha' : r'.any (fun q => q.1 = k)
        · have := ih
          rw [jsSet, if_pos ha', jsGet, jsGet] at this
          exact this
        · have hmap : r'.map (fun p => if p.1 = k then (k, v) else p) = r' := by
            conv_rhs => rw [← List.map_id r']
            apply List.map_congr_left
            intro x hx
            have hxk : ¬ x.1 = k := fun hxk =>
              absurd (List.any_eq_true.mpr ⟨x, hx, by simp [hxk]⟩) ha'
            simp [hxk]
          rw [hmap]
      · rw [if_neg hp, jsGet, jsGet]
        by_cases hp' : p.1 = k'
        · rw [List.find?_cons_of_pos _ (by simp [hp']), List.find?_cons_of_pos _ (by simp [hp'])]
        · rw [List.find?_cons_of_neg _ (by simp [hp']), List.find?_cons_of_neg _ (by simp [hp'])]
          have ha' : r'.any (fun q => q.1 = k) := by
            rcases List.any_eq_true.mp ha with ⟨x, hx, hxk⟩
            rcases List.mem_cons.mp hx with rfl | hx'
            · exact absurd (by simpa using hxk) hp
            · exact List.any_eq_true.mpr ⟨x, hx', hxk⟩
          have := ih
          rw [jsSet, if_pos ha', jsGet, jsGet] at this
          exact this
    · rw [if_neg ha, List.cons_append, jsGet, jsGet]
      by_cases hp' : p.1 = k'
      · rw [List.find?_cons_of_pos _ (by simp [hp']), List.find?_cons_of_pos _ (by simp [hp'])]
      · rw [List.find?_cons_of_neg _ (by simp [hp']), List.find?_cons_of_neg _ (by simp [hp'])]
        have ha' : ¬ r'.any (fun q => q.1 = k) := by
          intro hc
          rcases List.any_eq_true.mp hc with ⟨x, hx, hxk⟩
          exact ha (List.any_eq_true.mpr ⟨x, by simp [hx], hxk⟩)
        have := ih
        rw [jsSet, if_neg ha', jsGet, jsGet] at this
        exact this

theorem jsGet_jsSetMany (r : List (String × String)) (es : List (String × String))
    (k : String) :
    jsGet (jsSetMany r es) k = (lookupLast es k).or (jsGet r k) := by
  induction es generalizing r with
  | nil => simp [jsSetMany, lookupLast]
  | cons p es' ih =>
    rw [jsSetMany, List.foldl_cons]
    have step : es'.foldl (fun acc q => jsSet acc q.1 q.2) (jsSet r p.1 p.2) =
        jsSetMany (jsSet r p.1 p.2) es' := rfl
    rw [step, ih]
    rw [lookupLast]
    cases hlast : lookupLast es' k with
    | some v => simp [Option.or]
    | none =>
      by_cases hp : p.1 = k
      · subst hp
        simp [Option.or, jsGet_jsSet_same]
      · rw [if_neg hp]
        simp [Option.or, jsGet_jsSet_other r p.1 p.2 k (fun h => hp h.symm)]

/-! ## JS string helpers: trim, whitespace collapse, toLowerCase -/

/-- ASCII whitespace as matched by JS `\s` (the source only ever feeds
ASCII header values). -/
def jsIsSpace (c : Char) : Bool :=
  c = ' ' ∨ c = '\t' ∨ c = '\n' ∨ c = '\r' ∨ c = Char.ofNat 11 ∨ c = Char.ofNat 12

/-- `String.prototype.trim`. -/
def jsTrim (cs : List Char) : List Char :=
  ((cs.dropWhile jsIsSpace).reverse.dropWhile jsIsSpace).reverse

/-- Replace every whitespace run by a single space (`replace` with a
global whitespace-run pattern); the flag records whether the previous
character was part of a run. -/
def collapseWsAux : Bool → List Char → List Char
  | _, [] => []
  | prevSpace, c :: rest =>
    if jsIsSpace c then
      if prevSpace then collapseWsAux true rest
      else ' ' :: collapseWsAux true rest
    else c :: collapseWsAux false rest

/-- Replace every whitespace run by a single space. -/
def collapseWs (cs : List Char) : List Char := collapseWsAux false cs

/-- `.toString().trim().replace(whitespace-run, ' ')` applied to a header
value in `signedFetch`. -/
def trimCollapse (s : String) : String := String.mk (collapseWs (jsTrim s.data))

/-- `String.prototype.toLowerCase` (ASCII; header names in the source are
ASCII). -/
def jsToLower (s : String) : String := String.mk (s.data.map Char.toLower)

/-! ## `Date` formatting (`toISOString`, `toUTCString`), modelled from
ECMA-262 for instants in 1970-9999; instants are milliseconds since the
Unix epoch. -/

/-- Gregorian calendar date from days since the epoch (civil-from-days). -/
def civilFromDays (z : Nat) : Nat × Nat × Nat :=
  let z' := z + 719468
  let era := z' / 146097
  let doe := z' % 146097
  let yoe := (doe - doe / 1460 + doe / 36524 - doe / 146096) / 365
  let y := yoe + era * 400
  let doy := doe - (365 * yoe + yoe / 4 - yoe / 100)
  let mp := (5 * doy + 2) / 153
  let d := doy - (153 * mp + 2) / 5 + 1
  let m := if mp < 10 then mp + 3 else mp - 9
  (if m ≤ 2 then y + 1 else y, m, d)

/-- A decimal digit character. -/
def digitChar (d : Nat) : Char := Char.ofNat (48 + d % 10)

/-- Two zero-padded decimal digits. -/
def pad2 (n : Nat) : List Char := [digitChar (n / 10 % 10), digitChar (n % 10)]

/-- Three zero-padded decimal digits. -/
def pad3 (n : Nat) : List Char :=
  [digitChar (n / 100 % 10), digitChar (n / 10 % 10), digitChar (n % 10)]

/-- Four zero-padded decimal digits. -/
def pad4 (n : Nat) : List Char :=
  [digitChar (n / 1000 % 10), digitChar (n / 100 % 10), digitChar (n / 10 % 10),
   digitChar (n % 10)]

/-- `Date.prototype.toISOString`. -/
def toISOString (ms : Nat) : String :=
  let days := ms / 86400000
  let ymd := civilFromDays days
  let msOfDay := ms % 86400000
  String.mk (pad4 ymd.1 ++ '-' :: pad2 ymd.2.1 ++ '-' :: pad2 ymd.2.2 ++
    'T' :: pad2 (msOfDay / 3600000) ++ ':' :: pad2 (msOfDay / 60000 % 60) ++
    ':' :: pad2 (msOfDay / 1000 % 60) ++ '.' :: pad3 (ms % 1000) ++ ['Z'])

/-- The first regex replacement of `formatAmzDate`: delete `-` and `:`. -/
def stripDashColon (cs : List Char) : List Char :=
  cs.filter (fun c => ¬ (c = '-' ∨ c = ':'))

/-- The second regex replacement of `formatAmzDate`: rewrite a trailing
`.` + three digits + `Z` to `Z`. -/
def stripMillis (cs : List Char) : List Char :=
  match cs.reverse with
  | z :: d3 :: d2 :: d1 :: dot :: rest =>
    if z = 'Z' ∧ dot = '.' ∧ d1.isDigit ∧ d2.isDigit ∧ d3.isDigit then
      ('Z' :: rest).reverse
    else cs
  | _ => cs

/-- `formatAmzDate` of `src/lib/r2.ts`. -/
def formatAmzDate (ms : Nat) : String :=
  String.mk (stripMillis (stripDashColon (toISOString ms).data))

/-- Weekday abbreviation used by `toUTCString` (day 0 is Sunday). -/
def weekdayName (w : Nat) : String :=
  ["Sun", "Mon", "Tue", "Wed", "Thu", "Fri", "Sat"].getD w "???"

/-- Month abbreviation used by `toUTCString`. -/
def monthName (m : Nat) : String :=
  ["Jan", "Feb", "Mar", "Apr", "May", "Jun", "Jul", "Aug", "Sep", "Oct",
   "Nov", "Dec"].getD (m - 1) "???"

/-- `Date.prototype.toUTCString`. -/
def toUTCString (ms : Nat) : String :=
  let days := ms / 86400000
  let ymd := civilFromDays days
  let msOfDay := ms % 86400000
  weekdayName ((days + 4) % 7) ++ ", " ++ String.mk (pad2 ymd.2.2) ++ " " ++
    monthName ymd.2.1 ++ " " ++ String.mk (pad4 ymd.1) ++ " " ++
    String.mk (pad2 (msOfDay / 3600000)) ++ ":" ++
    String.mk (pad2 (msOfDay / 60000 % 60)) ++ ":" ++
    String.mk (pad2 (msOfDay / 1000 % 60)) ++ " GMT"

theorem digitChar_ne_dash (d : Nat) : digitChar d ≠ '-' := by
  unfold digitChar
  have h : d % 10 < 10 := Nat.mod_lt _ (by norm_num)
  revert h
  generalize d % 10 = k
  revert k
  decide

theorem digitChar_ne_colon (d : Nat) : digitChar d ≠ ':' := by
  unfold digitChar
  have h : d % 10 < 10 := Nat.mod_lt _ (by norm_num)
  revert h
  generalize d % 10 = k
  revert k
  decide

theorem digitChar_isDigit (d : Nat) : (digitChar d).isDigit = true := by
  unfold digitChar
  have h : d % 10 < 10 := Nat.mod_lt _ (by norm_num)
  revert h
  generalize d % 10 = k
  revert k
  decide

theorem stripMillis_suffix (l : List Char) (a b c : Char)
    (ha : a.isDigit) (hb : b.isDigit) (hc : c.isDigit) :
    stripMillis (l ++ '.' :: a :: b :: c :: ['Z']) = l ++ ['Z'] := by
  unfold stripMillis
  rw [List.reverse_append]
  rw [show ('.' :: a :: b :: c :: ['Z']).reverse = 'Z' :: c :: b :: a :: '.' :: [] from by
    simp]
  simp only [List.cons_append, List.nil_append]
  rw [if_pos (by simp [ha, hb, hc])]
  simp

/-- The formatted amz-date always has exactly 16 characters
(`YYYYMMDDTHHMMSSZ`). -/
theorem formatAmzDate_length (ms : Nat) : (formatAmzDate ms).data.length = 16 := by
  have h1 : stripDashColon (toISOString ms).data =
      (pad4 (civilFromDays (ms / 86400000)).1 ++ pad2 (civilFromDays (ms / 86400000)).2.1 ++
        pad2 (civilFromDays (ms / 86400000)).2.2 ++ 'T' :: pad2 (ms % 86400000 / 3600000) ++
        pad2 (ms % 86400000 / 60000 % 60) ++ pad2 (ms % 86400000 / 1000 % 60)) ++
        '.' :: digitChar (ms % 1000 / 100 % 10) :: digitChar (ms % 1000 / 10 % 10) ::
        digitChar (ms % 1000 % 10) :: ['Z'] := by
    unfold toISOString stripDashColon
    simp [pad4, pad3, pad2, List.filter_cons, digitChar_ne_dash, digitChar_ne_colon]
  unfold formatAmzDate
  rw [h1, stripMillis_suffix _ _ _ _ (digitChar_isDigit _) (digitChar_isDigit _)
    (digitChar_isDigit _)]
  simp [pad4, pad2]

/-! ## `src/lib/session.ts` -/

/-- The session cookie name. -/
def SESSION_COOKIE : String := "admin_session"

/-- Session time-to-live: 30 days in seconds. -/
def SESSION_TTL_SECONDS : Nat := 60 * 60 * 24 * 30

/-- `SameSiteValue` of `session.ts`. -/
inductive SameSiteValue where
  | strict
  | lax
  | none

/-- `CookieOptions` of `session.ts`; `expires` is a `Date` as milliseconds
since the epoch, `maxAge` an integer (the source only passes integers, so
`Math.trunc` is the identity on them). -/
structure CookieOptions where
  domain : Option String := Option.none
  expires : Option Nat := Option.none
  httpOnly : Bool := false
  maxAge : Option Int := Option.none
  path : Option String := Option.none
  sameSite : Option SameSiteValue := Option.none
  secure : Bool := false

/-- The `SameSite` label chosen by `serializeCookie` (the stored value is
already lowercase, so `toLowerCase` is the identity on it). -/
def sameSiteLabel : SameSiteValue → String
  | .none => "None"
  | .strict => "Strict"
  | .lax => "Lax"

/-- `serializeCookie` of `session.ts`: attribute parts joined by `; `.
Falsy (`undefined` or empty) `domain`/`path` are skipped; a present
`maxAge` number is always emitted; a present `expires` date is always
emitted (a JS `Date` object is truthy). -/
def serializeCookie (name value : String) (o : CookieOptions) : String :=
  String.intercalate "; " (
    [encodeURIComponent name ++ "=" ++ encodeURIComponent value]
    ++ (match o.domain with
        | some d => if d = "" then [] else ["Domain=" ++ d]
        | Option.none => [])
    ++ (match o.path with
        | some p => if p = "" then [] else ["Path=" ++ p]
        | Option.none => [])
    ++ (match o.maxAge with
        | some m => ["Max-Age=" ++ toString m]
        | Option.none => [])
    ++ (match o.expires with
        | some e => ["Expires=" ++ toUTCString e]
        | Option.none => [])
    ++ (if o.httpOnly then ["HttpOnly"] else [])
    ++ (if o.secure then ["Secure"] else [])
    ++ (match o.sameSite with
        | some ss => ["SameSite=" ++ sameSiteLabel ss]
        | Option.none => []))

/-- `AdminSession` of `session.ts` (the TS type pins `isAdmin` to the
literal `true`; decoding only ever constructs that value). -/
structure AdminSession where
  isAdmin : Bool
deriving DecidableEq

/-- `readSecret` of `session.ts` over its two environment sources:
`process.env.ADMIN_PASSWORD` and the build-time `import.meta.env` value. -/
def readSecret (procEnv buildEnv : Option String) : Option String :=
  let value := procEnv.or buildEnv
  match value with
  | Option.none => Option.none
  | some v => if v = "" then Option.none else some v

/-- `isAdminSecretConfigured` of `session.ts`. -/
def isAdminSecretConfigured (procEnv buildEnv : Option String) : Bool :=
  (readSecret procEnv buildEnv).isSome

/-- `signPayload` of `session.ts`. -/
def signPayload (payload secret : String) : String :=
  toBase64Url (hmacSha256 (strUtf8 secret) (strUtf8 payload))

/-- `JSON.stringify` of an `AdminSession` value. -/
def stringifyAdminSession (d : AdminSession) : String :=
  "\x7b\"isAdmin\":" ++ (if d.isAdmin then "true" else "false") ++ "\x7d"

/-- `encodeSession` of `session.ts`. -/
def encodeSession (data : AdminSession) (secret : String) : String :=
  let payload := stringifyAdminSession data
  let signature := signPayload payload secret
  toBase64UrlStr (payload ++ "." ++ signature)

/-- `crypto.timingSafeEqual` on equal-length buffers (the caller checks
lengths first). -/
def timingSafeEqual (a b : List Nat) : Bool := a == b

/-- `decodeSession` of `session.ts`. Total: every caught exception of the
source (`JSON.parse`) is a `none` of the embedded parser, so every failure
path returns `none`. -/
def decodeSession (raw : String) (secret : Option String) : Option AdminSession :=
  match secret with
  | Option.none => Option.none
  | some sec =>
    if sec = "" then Option.none
    else
      let decoded := utf8Decode (fromBase64Url raw)
      match lastIndexOfDot decoded with
      | Option.none => Option.none
      | some sep =>
        let payload := String.mk (decoded.take sep)
        let providedSignature := String.mk (decoded.drop (sep + 1))
        let expectedSignature := signPayload payload sec
        let providedBuffer := fromBase64Url providedSignature
        let expectedBuffer := fromBase64Url expectedSignature
        if providedBuffer.length ≠ expectedBuffer.length then Option.none
        else if ¬ timingSafeEqual providedBuffer expectedBuffer then Option.none
        else
          match jsonParse payload with
          | Option.none => Option.none
          | some parsed =>
            if jsonIsAdminTrue parsed then some ⟨true⟩ else Option.none

/-- `setAdminSession` of `session.ts`; `prod` is `import.meta.env.PROD`,
`nowMs` is `Date.now()`. -/
def setAdminSession (procEnv buildEnv : Option String) (prod : Bool)
    (nowMs : Nat) : Option String :=
  match readSecret procEnv buildEnv with
  | Option.none => Option.none
  | some secret =>
    let value := encodeSession ⟨true⟩ secret
    let expires := nowMs + SESSION_TTL_SECONDS * 1000
    some (serializeCookie SESSION_COOKIE value
      { path := some "/", httpOnly := true, sameSite := some .lax, secure := prod,
        maxAge := some (SESSION_TTL_SECONDS : Int), expires := some expires })

/-- `clearAdminSession` of `session.ts`. -/
def clearAdminSession (prod : Bool) : String :=
  serializeCookie SESSION_COOKIE ""
    { path := some "/", httpOnly := true, sameSite := some .lax, secure := prod,
      maxAge := some 0, expires := some 0 }

/-! ## JS string comparison (`<` on strings: lexicographic by code unit) -/

/-- JS `a < b` on character lists (code-unit order; all strings compared
by the source are ASCII, where code-unit and scalar order agree). -/
def jsStrLtList : List Char → List Char → Bool
  | [], [] => false
  | [], _ :: _ => true
  | _ :: _, [] => false
  | a :: as, b :: bs =>
    if a.toNat < b.toNat then true
    else if b.toNat < a.toNat then false
    else jsStrLtList as bs

/-- JS `a < b` on strings. -/
def jsStrLt (a b : String) : Bool := jsStrLtList a.data b.data

/-- The non-strict order induced by the JS sort comparator: `a` may stay
before `b` exactly when `b < a` is false. -/
def jsStrLe (a b : String) : Bool := ¬ jsStrLtList b.data a.data

theorem char_toNat_inj {c d : Char} (h : c.toNat = d.toNat) : c = d := by
  rw [← Char.ofNat_toNat c, h, Char.ofNat_toNat]

theorem jsStrLtList_asymm : ∀ a b, jsStrLtList a b = true → jsStrLtList b a = false := by
  intro a
  induction a with
  | nil =>
    intro b h
    cases b with
    | nil => simp [jsStrLtList] at h
    | cons c cs => simp [jsStrLtList]
  | cons c cs ih =>
    intro b h
    cases b with
    | nil => simp [jsStrLtList] at h
    | cons d ds =>
      rw [jsStrLtList] at h
      rw [jsStrLtList]
      rcases Nat.lt_trichotomy c.toNat d.toNat with h1 | h1 | h1
      · rw [if_neg (by omega), if_pos h1]
      · rw [if_neg (by omega), if_neg (by omega)] at h
        rw [if_neg (by omega), if_neg (by omega)]
        exact ih ds h
      · rw [if_neg (by omega), if_pos h1] at h
        cases h

theorem jsStrLtList_trans :
    ∀ a b c, jsStrLtList a b = true → jsStrLtList b c = true →
      jsStrLtList a c = true := by
  intro a
  induction a with
  | nil =>
    intro b c h1 h2
    cases b with
    | nil => simp [jsStrLtList] at h1
    | cons y ys =>
      cases c with
      | nil => simp [jsStrLtList] at h2
      | cons z zs => simp [jsStrLtList]
  | cons x xs ih =>
    intro b c h1 h2
    cases b with
    | nil => simp [jsStrLtList] at h1
    | cons y ys =>
      cases c with
      | nil => simp [jsStrLtList] at h2
      | cons z zs =>
        rw [jsStrLtList] at h1 h2
        rw [jsStrLtList]
        rcases Nat.lt_trichotomy x.toNat y.toNat with hxy | hxy | hxy <;>
          rcases Nat.lt_trichotomy y.toNat z.toNat with hyz | hyz | hyz
        · exact by rw [if_pos (by omega)]
        · exact by rw [if_pos (by omega)]
        · rw [if_neg (by omega), if_pos hyz] at h2
          cases h2
        · exact by rw [if_pos (by omega)]
        · rw [if_neg (by omega), if_neg (by omega)] at h1
          rw [if_neg (by omega), if_neg (by omega)] at h2
          rw [if_neg (by omega), if_neg (by omega)]
          exact ih ys zs h1 h2
        · rw [if_neg (by omega), if_pos hyz] at h2
          cases h2
        · rw [if_neg (by omega), if_pos hxy] at h1
          cases h1
        · rw [if_neg (by omega), if_pos hxy] at h1
          cases h1
        · rw [if_neg (by omega), if_pos hxy] at h1
          cases h1

theorem jsStrLtList_conn :
    ∀ a b, jsStrLtList a b = false → jsStrLtList b a = false → a = b := by
  intro a
  induction a with
  | nil =>
    intro b h1 h2
    cases b with
    | nil => rfl
    | cons c cs => simp [jsStrLtList] at h1
  | cons x xs ih =>
    intro b h1 h2
    cases b with
    | nil => simp [jsStrLtList] at h2
    | cons y ys =>
      rw [jsStrLtList] at h1 h2
      rcases Nat.lt_trichotomy x.toNat y.toNat with hxy | hxy | hxy
      · rw [if_pos hxy] at h1
        cases h1
      · rw [if_neg (by omega), if_neg (by omega)] at h1
        rw [if_neg (by omega), if_neg (by omega)] at h2
        rw [char_toNat_inj hxy, ih ys h1 h2]
      · rw [if_pos hxy] at h2
        cases h2

/-! ## `src/lib/r2.ts` -/

/-- `R2Config` of `r2.ts`. -/
structure R2Config where
  accountId : String
  bucket : String
  endpoint : String
  accessKeyId : String
  secretAccessKey : String
  forcePathStyle : Bool
deriving DecidableEq

/-- The five `import.meta.env` strings (plus the optional path-style flag)
read by `ensureConfig`; `none` models an undefined variable. -/
structure R2Env where
  accountId : Option String
  bucket : Option String
  endpoint : Option String
  accessKeyId : Option String
  secretAccessKey : Option String
  forcePathStyleFlag : Option String
deriving DecidableEq

/-- JS falsiness of an optional string: undefined or empty. -/
def falsyStr : Option String → Bool
  | Option.none => true
  | some s => s = ""

/-- `String.prototype.toUpperCase` (ASCII, as used on HTTP methods). -/
def jsToUpper (s : String) : String := String.mk (s.data.map Char.toUpper)

/-- `ensureConfig` of `r2.ts` as a function of the environment and the
module-level `cachedConfig` cell; returns the result and the new cell. -/
def ensureConfig (env : R2Env) (cache : Option R2Config) :
    Except String R2Config × Option R2Config :=
  match cache with
  | some c => (.ok c, some c)
  | Option.none =>
    if falsyStr env.accountId ∨ falsyStr env.bucket ∨ falsyStr env.endpoint ∨
        falsyStr env.accessKeyId ∨ falsyStr env.secretAccessKey then
      (.error "Missing R2 environment variables.", Option.none)
    else
      let cfg : R2Config := {
        accountId := env.accountId.getD ""
        bucket := env.bucket.getD ""
        endpoint := env.endpoint.getD ""
        accessKeyId := env.accessKeyId.getD ""
        secretAccessKey := env.secretAccessKey.getD ""
        forcePathStyle := jsToLower (env.forcePathStyleFlag.getD "") = "true" }
      (.ok cfg, some cfg)

/-- Lowercase hexadecimal digit. -/
def hexLowerChar (n : Nat) : Char := "0123456789abcdef".data.getD n '?'

/-- Lowercase hex rendering of a byte buffer (`digest('hex')`). -/
def bytesToHex (l : List Nat) : String :=
  String.mk (l.flatMap (fun b => [hexLowerChar (b / 16), hexLowerChar (b % 16)]))

/-- `hashSha256` of `r2.ts` (hex digest). -/
def hashSha256 (value : List Nat) : String := bytesToHex (sha256 value)

/-- `createSigningKey` of `r2.ts`: the four-stage HMAC chain. -/
def createSigningKey (secret : String) (dateStamp : String) : List Nat :=
  let kDate := hmacSha256 (strUtf8 ("AWS4" ++ secret)) (strUtf8 dateStamp)
  let kRegion := hmacSha256 kDate (strUtf8 "auto")
  let kService := hmacSha256 kRegion (strUtf8 "s3")
  hmacSha256 kService (strUtf8 "aws4_request")

/-- `normaliseEndpoint` of `r2.ts`: strip one trailing slash. -/
def normaliseEndpoint (endpoint : String) : String :=
  match endpoint.data.reverse with
  | '/' :: rest => String.mk rest.reverse
  | _ => endpoint

/-- `buildCanonicalQuery` of `r2.ts`: RFC 3986-encode the pairs, then a
stable sort on the encoded name (the JS comparator compares names only). -/
def buildCanonicalQuery (query : Option (List (String × String))) : String :=
  match query with
  | Option.none => ""
  | some q =>
    let parts := q.map (fun p => (encodeRfc3986 p.1, encodeRfc3986 p.2))
    let sorted := List.insertionSort (fun x y => jsStrLe x.1 y.1 = true) parts
    String.intercalate "&" (sorted.map (fun p => p.1 ++ "=" ++ p.2))

/-- `encodeKey` of `r2.ts`: encode each slash-separated segment. -/
def encodeKey (key : Option String) : String :=
  match key with
  | Option.none => ""
  | some k =>
    if k = "" then ""
    else String.intercalate "/" ((k.splitOn "/").map encodeRfc3986)

/-- Modelled from the spec: the WHATWG `URL` host (hostname plus optional
port) of an `scheme://host[/...]` endpoint string, as `new URL(...)` in
`signedFetch` exposes it; only this shape of endpoint occurs. -/
def dropSchemeAux : List Char → List Char
  | ':' :: '/' :: '/' :: rest => rest
  | _ :: rest => dropSchemeAux rest
  | [] => []

/-- Host (including port) of an endpoint URL. -/
def urlHostPort (endpoint : String) : String :=
  String.mk ((dropSchemeAux endpoint.data).takeWhile
    (fun c => ¬ (c = '/' ∨ c = '?' ∨ c = '#')))

/-- Split a host into hostname and the port suffix (with its colon). -/
def splitHostPort (host : String) : String × String :=
  let hn := host.data.takeWhile (· ≠ ':')
  (String.mk hn, String.mk (host.data.drop hn.length))

/-- `RequestOptions` of `r2.ts`; the body is already a byte buffer (an
absent body and an empty body both become the empty buffer, as in the
source). -/
structure RequestOptions where
  method : String
  key : Option String := Option.none
  query : Option (List (String × String)) := Option.none
  body : List Nat := []
  headers : List (String × String) := []

/-- The canonical-header object of `signedFetch`: the three mandatory
entries, then every caller header assigned under its lowercased name. -/
def canonicalHeadersOf (host payloadHash amzDate : String)
    (additional : List (String × String)) : List (String × String) :=
  jsSetMany [("host", host), ("x-amz-content-sha256", payloadHash),
    ("x-amz-date", amzDate)]
    (additional.map (fun p => (jsToLower p.1, p.2)))

/-- The outgoing-request header object of `signedFetch`: hash, date and
`Authorization`, then every caller header under its original name. -/
def requestHeadersOf (payloadHash amzDate authorization : String)
    (additional : List (String × String)) : List (String × String) :=
  jsSetMany [("x-amz-content-sha256", payloadHash), ("x-amz-date", amzDate),
    ("Authorization", authorization)] additional

/-- Everything `signedFetch` computes before the network call. -/
structure SignArtifacts where
  amzDate : String
  dateStamp : String
  payloadHash : String
  host : String
  canonicalUri : String
  canonicalQuery : String
  canonicalHeaders : List (String × String)
  canonicalHeadersString : String
  signedHeaders : String
  canonicalRequest : String
  stringToSign : String
  signature : String
  authorization : String
  requestHeaders : List (String × String)
deriving DecidableEq

/-- The signing computation of `signedFetch` (lines 162-254 of `r2.ts`)
given the already-formatted amz-date; the instant enters the source
computation only through `formatAmzDate(now)`. -/
def signingFromAmzDate (cfg : R2Config) (opts : RequestOptions) (amzDate : String) :
    SignArtifacts :=
  let method := jsToUpper opts.method
  let endpointNorm := normaliseEndpoint cfg.endpoint
  let host0 := urlHostPort endpointNorm
  let hp := splitHostPort host0
  let encodedKey := encodeKey opts.key
  let canonicalUri :=
    if cfg.forcePathStyle then
      "/" ++ encodeRfc3986 cfg.bucket ++
        (if encodedKey = "" then "" else "/" ++ encodedKey)
    else if encodedKey = "" then "/" else "/" ++ encodedKey
  let host := if cfg.forcePathStyle then host0 else cfg.bucket ++ "." ++ hp.1 ++ hp.2
  let canonicalQuery := buildCanonicalQuery opts.query
  let payloadHash := hashSha256 opts.body
  let dateStamp := String.mk (amzDate.data.take 8)
  let credentialScope := dateStamp ++ "/auto/s3/aws4_request"
  let canonicalHeaders := canonicalHeadersOf host payloadHash amzDate opts.headers
  let sortedHeaderNames := List.insertionSort (fun a b => jsStrLe a b = true)
    (canonicalHeaders.map Prod.fst)
  let canonicalHeadersString :=
    String.intercalate "\n" (sortedHeaderNames.map
      (fun n => n ++ ":" ++ trimCollapse ((jsGet canonicalHeaders n).getD ""))) ++ "\n"
  let signedHeaders := String.intercalate ";" sortedHeaderNames
  let canonicalRequest := method ++ "\n" ++ canonicalUri ++ "\n" ++ canonicalQuery ++
    "\n" ++ canonicalHeadersString ++ "\n" ++ signedHeaders ++ "\n" ++ payloadHash
  let stringToSign := "AWS4-HMAC-SHA256" ++ "\n" ++ amzDate ++ "\n" ++
    credentialScope ++ "\n" ++ hashSha256 (strUtf8 canonicalRequest)
  let signingKey := createSigningKey cfg.secretAccessKey dateStamp
  let signature := bytesToHex (hmacSha256 signingKey (strUtf8 stringToSign))
  let authorization := "AWS4-HMAC-SHA256 Credential=" ++ cfg.accessKeyId ++ "/" ++
    credentialScope ++ ", SignedHeaders=" ++ signedHeaders ++ ", Signature=" ++
    signature
  { amzDate := amzDate
    dateStamp := dateStamp
    payloadHash := payloadHash
    host := host
    canonicalUri := canonicalUri
    canonicalQuery := canonicalQuery
    canonicalHeaders := canonicalHeaders
    canonicalHeadersString := canonicalHeadersString
    signedHeaders := signedHeaders
    canonicalRequest := canonicalRequest
    stringToSign := stringToSign
    signature := signature
    authorization := authorization
    requestHeaders := requestHeadersOf payloadHash amzDate authorization opts.headers }

/-- The signing computation of `signedFetch` as a pure function of the
configuration, the request options and the current instant `nowMs`. -/
def signingArtifacts (cfg : R2Config) (opts : RequestOptions) (nowMs : Nat) :
    SignArtifacts :=
  signingFromAmzDate cfg opts (formatAmzDate nowMs)

/-- `response.ok` of the Fetch API. -/
def responseOk (status : Nat) : Bool := 200 ≤ status ∧ status ≤ 299

/-- The error message thrown by `signedFetch` for a non-ok response
(lines 256-268 of `r2.ts`); `bodyRead` is the result of `response.text()`
(`none` when reading the body itself failed). -/
def transportErrorMessage (status : Nat) (statusText : String)
    (bodyRead : Option String) : String :=
  let message := "HTTP " ++ toString status
  let message :=
    match bodyRead with
    | some t => if t ≠ "" then String.mk (t.data.take 200) else message
    | Option.none => message
  if message ≠ "" then message
  else if statusText ≠ "" then statusText
  else "Request failed"

/-- The outcome of the response check of `signedFetch`. -/
def signedFetchOutcome (status : Nat) (statusText : String)
    (bodyRead : Option String) : Except String Unit :=
  if responseOk status then .ok ()
  else .error (transportErrorMessage status statusText bodyRead)

/-! ## `src/pages/api/test-r2.ts` -/

/-- The four diagnostic steps. -/
inductive StepName where
  | list
  | put
  | get
  | del
deriving DecidableEq

/-- One entry of the `steps` array (timing omitted: wall-clock is not
modelled). -/
structure StepRecord where
  name : StepName
  ok : Bool
deriving DecidableEq

/-- Remote outcomes of the four storage calls, were they attempted. -/
structure DiagOutcomes where
  listOk : Bool
  putOk : Bool
  getOk : Bool
  delOk : Bool

/-- `runStep` of `test-r2.ts`: record the step and rethrow on failure. -/
def runStep (name : StepName) (ok : Bool) (st : List StepRecord) :
    Except (StepName × List StepRecord) (List StepRecord) :=
  if ok then .ok (st ++ [⟨name, true⟩]) else .error (name, st ++ [⟨name, false⟩])

/-- The response of the diagnostic endpoint: HTTP status, failed step of
the error body (if any), recorded steps, whether the `put` completed, and
whether the catch block attempted the cleanup delete. -/
structure DiagResult where
  status : Nat
  failedStep : Option StepName
  steps : List StepRecord
  objectCreated : Bool
  cleanupAttempted : Bool
deriving DecidableEq

/-- The `GET` handler of `test-r2.ts` over abstract step outcomes: run
list, put, get, del in order; on the first failure fall into the catch
block, which attempts the cleanup delete exactly when `objectCreated` is
set (its own outcome is ignored), and respond 500; respond 200 when all
four steps succeed. -/
def diagGET (o : DiagOutcomes) : DiagResult :=
  match runStep .list o.listOk [] with
  | .error (step, steps) =>
    { status := 500, failedStep := some step, steps := steps,
      objectCreated := false, cleanupAttempted := false }
  | .ok s1 =>
    match runStep .put o.putOk s1 with
    | .error (step, steps) =>
      { status := 500, failedStep := some step, steps := steps,
        objectCreated := false, cleanupAttempted := false }
    | .ok s2 =>
      match runStep .get o.getOk s2 with
      | .error (step, steps) =>
        { status := 500, failedStep := some step, steps := steps,
          objectCreated := true, cleanupAttempted := true }
      | .ok s3 =>
        match runStep .del o.delOk s3 with
        | .error (step, steps) =>
          { status := 500, failedStep := some step, steps := steps,
            objectCreated := true, cleanupAttempted := true }
        | .ok s4 =>
          { status := 200, failedStep := Option.none, steps := s4,
            objectCreated := true, cleanupAttempted := false }

/-! ## Claims -/

/-- C5: `readSecret` returns the process-environment value when it is
non-empty; the build-time value when the process value is absent and the
build-time value is non-empty; and `undefined` otherwise. An empty string
is never returned (empty resolves to absent), and a present process value
takes precedence over the build-time value. -/
theorem C5_readSecret_precedence (p b : Option String) :
    (∀ v, p = some v → v ≠ "" → readSecret p b = some v) ∧
    (p = Option.none → ∀ w, b = some w → w ≠ "" → readSecret p b = some w) ∧
    ((p = some "" ∨ (p = Option.none ∧ (b = Option.none ∨ b = some ""))) →
      readSecret p b = Option.none) ∧
    readSecret p b ≠ some "" := by
  refine ⟨?_, ?_, ?_, ?_⟩
  · rintro v rfl hv
    simp [readSecret, Option.or, hv]
  · rintro rfl w rfl hw
    simp [readSecret, Option.or, hw]
  · rintro (rfl | ⟨rfl, rfl | rfl⟩) <;> simp [readSecret, Option.or]
  · cases p with
    | none =>
      cases b with
      | none => simp [readSecret, Option.or]
      | some w =>
        by_cases hw : w = "" <;> simp [readSecret, Option.or, hw]
    | some v =>
      by_cases hv : v = "" <;> simp [readSecret, Option.or, hv]

theorem C5_witness :
    readSecret (some "x") (some "y") = some "x" ∧
    readSecret Option.none (some "y") = some "y" := by
  constructor
  · exact (C5_readSecret_precedence (some "x") (some "y")).1 "x" rfl (by decide)
  · exact (C5_readSecret_precedence Option.none (some "y")).2.1 rfl "y" rfl (by decide)

/-- C10: `clearAdminSession` needs no secret and always returns the
`admin_session` cookie string with an empty value, `Max-Age=0` and the
epoch `Expires` date (plus `Secure` in production mode), while
`setAdminSession` returns `null` whenever no secret resolves. -/
theorem C10_clear_session (p b : Option String) (prod : Bool) (now : Nat) :
    (readSecret p b = Option.none → setAdminSession p b prod now = Option.none) ∧
    clearAdminSession false =
      "admin_session=; Path=/; Max-Age=0; Expires=Thu, 01 Jan 1970 00:00:00 GMT; HttpOnly; SameSite=Lax" ∧
    clearAdminSession true =
      "admin_session=; Path=/; Max-Age=0; Expires=Thu, 01 Jan 1970 00:00:00 GMT; HttpOnly; Secure; SameSite=Lax" := by
  refine ⟨?_, by decide, by decide⟩
  intro h
  simp [setAdminSession, h]

theorem C10_witness :
    setAdminSession Option.none Option.none false 0 = Option.none :=
  (C10_clear_session Option.none Option.none false 0).1 rfl

/-- C7: configuration resolution on an empty cache fails exactly when one
of the five required fields is absent or empty (and then leaves the cache
empty, so a later call re-runs resolution); it caches the first success,
and any later call returns the cached configuration unchanged for every
environment (the environment is not re-read). -/
theorem C7_ensureConfig_cache (env : R2Env) (c : R2Config) :
    ((ensureConfig env Option.none).1.isOk = false ↔
      (falsyStr env.accountId ∨ falsyStr env.bucket ∨ falsyStr env.endpoint ∨
        falsyStr env.accessKeyId ∨ falsyStr env.secretAccessKey)) ∧
    ((falsyStr env.accountId ∨ falsyStr env.bucket ∨ falsyStr env.endpoint ∨
        falsyStr env.accessKeyId ∨ falsyStr env.secretAccessKey) →
      ensureConfig env Option.none =
        (.error "Missing R2 environment variables.", Option.none)) ∧
    (¬ (falsyStr env.accountId ∨ falsyStr env.bucket ∨ falsyStr env.endpoint ∨
        falsyStr env.accessKeyId ∨ falsyStr env.secretAccessKey) →
      ∃ cfg, ensureConfig env Option.none = (.ok cfg, some cfg)) ∧
    (∀ env' : R2Env, ensureConfig env' (some c) = (.ok c, some c)) := by
  refine ⟨?_, ?_, ?_, fun env' => rfl⟩
  · constructor
    · intro h
      by_contra hfal
      rw [ensureConfig, if_neg hfal] at h
      simp [Except.isOk, Except.toBool] at h
    · intro h
      rw [ensureConfig, if_pos h]
      rfl
  · intro h
    rw [ensureConfig, if_pos h]
  · intro h
    exact ⟨_, by rw [ensureConfig, if_neg h]⟩

theorem C7_witness :
    ensureConfig ⟨some "a", Option.none, some "e", some "k", some "s", Option.none⟩
        Option.none =
      (.error "Missing R2 environment variables.", Option.none) ∧
    ensureConfig ⟨Option.none, Option.none, Option.none, Option.none, Option.none,
        Option.none⟩ (some ⟨"a", "b", "e", "k", "s", false⟩) =
      (.ok ⟨"a", "b", "e", "k", "s", false⟩, some ⟨"a", "b", "e", "k", "s", false⟩) := by
  constructor
  · exact (C7_ensureConfig_cache
      ⟨some "a", Option.none, some "e", some "k", some "s", Option.none⟩
      ⟨"a", "b", "e", "k", "s", false⟩).2.1 (by decide)
  · exact (C7_ensureConfig_cache
      ⟨Option.none, Option.none, Option.none, Option.none, Option.none, Option.none⟩
      ⟨"a", "b", "e", "k", "s", false⟩).2.2.2 _

/-- C9: whenever the `put` step succeeded and a later step fails, the
handler attempts the best-effort cleanup delete (recorded in the result it
builds before responding) and responds 500; when `put` never succeeded, no
cleanup is attempted. -/
theorem C9_cleanup (o : DiagOutcomes) :
    (o.listOk = true → o.putOk = true → (o.getOk = false ∨ o.delOk = false) →
      (diagGET o).cleanupAttempted = true ∧ (diagGET o).status = 500 ∧
        (diagGET o).objectCreated = true) ∧
    ((o.listOk = false ∨ o.putOk = false) → (diagGET o).cleanupAttempted = false) ∧
    (o.listOk = true → o.putOk = true → o.getOk = true → o.delOk = true →
      (diagGET o).status = 200 ∧ (diagGET o).cleanupAttempted = false) := by
  obtain ⟨l, p, g, d⟩ := o
  cases l <;> cases p <;> cases g <;> cases d <;> simp [diagGET, runStep]

theorem C9_witness :
    (diagGET ⟨true, true, false, true⟩).cleanupAttempted = true ∧
    (diagGET ⟨true, false, true, true⟩).cleanupAttempted = false :=
  ⟨((C9_cleanup ⟨true, true, false, true⟩).1 rfl rfl (Or.inl rfl)).1,
   (C9_cleanup ⟨true, false, true, true⟩).2.1 (Or.inr rfl)⟩

/-- Substring test used to express "the message carries the status code". -/
def strContains (hay needle : String) : Bool :=
  hay.data.tails.any (fun t => needle.data.isPrefixOf t)

/-- C4 counterexample: for a 404 response with the non-empty body `oops`,
`signedFetch` throws exactly `oops` — the message does not carry the
status code, contrary to the claim that it carries both. -/
theorem C4_counterexample :
    signedFetchOutcome 404 "Not Found" (some "oops") = .error "oops" ∧
    strContains "oops" "404" = false := by constructor <;> rfl

/-- C4 (amended): for every non-success status the call fails, and the
error message is the first at-most-200 characters of the response body
when the body is non-empty, and `HTTP <status>` (carrying the status) only
when the body is empty or unreadable; success statuses do not fail. -/
theorem C4_transport_error (status : Nat) (statusText : String)
    (bodyRead : Option String) :
    (responseOk status = false →
      ∃ m, signedFetchOutcome status statusText bodyRead = .error m ∧
        (∀ t, bodyRead = some t → t ≠ "" →
          m = String.mk (t.data.take 200) ∧ m.data.length ≤ 200) ∧
        ((bodyRead = Option.none ∨ bodyRead = some "") →
          m = "HTTP " ++ toString status)) ∧
    (responseOk status = true →
      signedFetchOutcome status statusText bodyRead = .ok ()) := by
  have hhttp : ("HTTP " ++ toString status) ≠ "" := by
    intro h
    have hd := congrArg String.data h
    simp at hd
  constructor
  · intro hok
    refine ⟨transportErrorMessage status statusText bodyRead, ?_, ?_, ?_⟩
    · rw [signedFetchOutcome, if_neg (by simp [hok])]
    · rintro t rfl ht
      have htake : String.mk (t.data.take 200) ≠ "" := by
        intro hmk
        have hd : t.data.take 200 = [] := congrArg String.data hmk
        rcases List.take_eq_nil_iff.mp hd with h | h
        · exact absurd h (by norm_num)
        · exact ht (show t = "" from congrArg String.mk h)
      have hmsg : transportErrorMessage status statusText (some t) =
          String.mk (t.data.take 200) := by
        simp only [transportErrorMessage]
        rw [if_pos ht, if_pos htake]
      refine ⟨hmsg, ?_⟩
      rw [hmsg]
      show (t.data.take 200).length ≤ 200
      rw [List.length_take]
      exact Nat.min_le_left _ _
    · rintro (rfl | rfl)
      · simp only [transportErrorMessage]
        rw [if_pos hhttp]
      · simp only [transportErrorMessage]
        rw [if_neg (show ¬ ("" : String) ≠ "" from fun hc => hc rfl), if_pos hhttp]
  · intro hok
    rw [signedFetchOutcome, if_pos hok]

theorem C4_amended_witness :
    ∃ m, signedFetchOutcome 500 "" Option.none = .error m ∧
      m = "HTTP " ++ toString 500 := by
  obtain ⟨m, hm, _, hnone⟩ := (C4_transport_error 500 "" Option.none).1 (by decide)
  exact ⟨m, hm, hnone (Or.inl rfl)⟩

/-- C3: `decodeSession` is a total function (the embedded decoder returns
an `Option` on every input, mirroring the catch-all of the source) and
fails closed: an absent or empty secret, a decoded string with no `.`
separator, an unparsable payload, a payload whose `isAdmin` is not exactly
`true`, and a signature mismatch all yield `none`; on every input the
result is `none` or the admin claim. -/
theorem C3_decode_fails_closed (raw : String) (sec : Option String) :
    ((sec = Option.none ∨ sec = some "") → decodeSession raw sec = Option.none) ∧
    (decodeSession raw sec = Option.none ∨ decodeSession raw sec = some ⟨true⟩) ∧
    (∀ s, sec = some s → s ≠ "" →
      (lastIndexOfDot (utf8Decode (fromBase64Url raw)) = Option.none →
        decodeSession raw sec = Option.none) ∧
      (∀ sep, lastIndexOfDot (utf8Decode (fromBase64Url raw)) = some sep →
        (jsonParse (String.mk ((utf8Decode (fromBase64Url raw)).take sep)) =
            Option.none → decodeSession raw sec = Option.none) ∧
        (∀ v, jsonParse (String.mk ((utf8Decode (fromBase64Url raw)).take sep)) =
            some v → jsonIsAdminTrue v = false →
          decodeSession raw sec = Option.none) ∧
        (fromBase64Url (String.mk ((utf8Decode (fromBase64Url raw)).drop (sep + 1))) ≠
            fromBase64Url (signPayload
              (String.mk ((utf8Decode (fromBase64Url raw)).take sep)) s) →
          decodeSession raw sec = Option.none))) := by
  refine ⟨?_, ?_, ?_⟩
  · rintro (rfl | rfl)
    · rfl
    · simp [decodeSession]
  · cases sec with
    | none => exact Or.inl rfl
    | some s =>
      by_cases hs : s = ""
      · exact Or.inl (by simp [decodeSession, hs])
      · simp only [decodeSession]
        rw [if_neg hs]
        cases hli : lastIndexOfDot (utf8Decode (fromBase64Url raw)) with
        | none => exact Or.inl rfl
        | some sep =>
          dsimp only
          split_ifs with h1 h2
          all_goals try exact Or.inl rfl
          cases hj : jsonParse
              (String.mk ((utf8Decode (fromBase64Url raw)).take sep)) with
          | none => exact Or.inl rfl
          | some v =>
            by_cases hia : jsonIsAdminTrue v
            · exact Or.inr (by simp [hia])
            · exact Or.inl (by simp [hia])
  · rintro s rfl hs
    refine ⟨?_, ?_⟩
    · intro hnd
      simp only [decodeSession]
      rw [if_neg hs, hnd]
    · intro sep hsep
      refine ⟨?_, ?_, ?_⟩
      · intro hjson
        simp only [decodeSession]
        rw [if_neg hs, hsep]
        dsimp only
        split_ifs with h1 h2
        all_goals try rfl
        rw [hjson]
      · intro v hjson hia
        simp only [decodeSession]
        rw [if_neg hs, hsep]
        dsimp only
        split_ifs with h1 h2
        all_goals try rfl
        rw [hjson]
        simp [hia]
      · intro hbuf
        simp only [decodeSession]
        rw [if_neg hs, hsep]
        dsimp only
        split_ifs with h1 h2
        all_goals try rfl
        exact absurd (by simpa [timingSafeEqual] using h2) hbuf

theorem C3_witness :
    decodeSession "abc" Option.none = Option.none ∧
    decodeSession "" (some "x") = Option.none :=
  ⟨(C3_decode_fails_closed "abc" Option.none).1 (Or.inl rfl),
   ((C3_decode_fails_closed "" (some "x")).2.2 "x" rfl (by decide)).1 (by
     simp [fromBase64Url, fromB64UrlChars, nodeB64Decode, nodeB64Decode4, utf8Decode, lastIndexOfDot])⟩

theorem strDataInj {a b : String} (h : a.data = b.data) : a = b := by
  cases a
  cases b
  exact congrArg String.mk h

theorem lookupLast_eq_none (es : List (String × String)) (k : String)
    (h : ∀ p ∈ es, p.1 ≠ k) : lookupLast es k = Option.none := by
  induction es with
  | nil => rfl
  | cons p es' ih =>
    rw [lookupLast, ih (fun x hx => h x (by simp [hx]))]
    simp [h p (by simp)]

/-- C2 counterexample: with a caller-supplied `host` header, the canonical
header object of the signer carries the caller's value — not the
system-computed endpoint host — so a mandatory header can be replaced. -/
theorem C2_counterexample :
    jsGet (signingArtifacts ⟨"acct", "bkt", "https://h.example.com", "AK", "SK", false⟩
      ⟨"GET", Option.none, Option.none, [], [("host", "evil")]⟩ 0).canonicalHeaders
      "host" = some "evil" ∧
    (signingArtifacts ⟨"acct", "bkt", "https://h.example.com", "AK", "SK", false⟩
      ⟨"GET", Option.none, Option.none, [], [("host", "evil")]⟩ 0).host =
      "bkt.h.example.com" ∧
    ("evil" : String) ≠ "bkt.h.example.com" := by
  refine ⟨by decide, by decide, by decide⟩

/-- C2 (amended): caller headers are merged last under lowercased names,
so a caller value wins for every colliding name including the three
mandatory ones; the mandatory headers carry the system-computed values
exactly when no caller header lowercases to their names. The outgoing
request headers behave the same under exact names. -/
theorem C2_header_merge (host ph ad auth : String)
    (headers : List (String × String)) :
    ((∀ p ∈ headers, jsToLower p.1 ≠ "host") →
      jsGet (canonicalHeadersOf host ph ad headers) "host" = some host) ∧
    ((∀ p ∈ headers, jsToLower p.1 ≠ "x-amz-content-sha256") →
      jsGet (canonicalHeadersOf host ph ad headers) "x-amz-content-sha256" = some ph) ∧
    ((∀ p ∈ headers, jsToLower p.1 ≠ "x-amz-date") →
      jsGet (canonicalHeadersOf host ph ad headers) "x-amz-date" = some ad) ∧
    (∀ k v, lookupLast (headers.map (fun p => (jsToLower p.1, p.2))) k = some v →
      jsGet (canonicalHeadersOf host ph ad headers) k = some v) ∧
    (∀ k v, lookupLast headers k = some v →
      jsGet (requestHeadersOf ph ad auth headers) k = some v) := by
  have hmem : ∀ (needle : String), (∀ p ∈ headers, jsToLower p.1 ≠ needle) →
      lookupLast (headers.map (fun p => (jsToLower p.1, p.2))) needle = Option.none := by
    intro needle hno
    apply lookupLast_eq_none
    intro p hp
    rw [List.mem_map] at hp
    obtain ⟨x, hx, rfl⟩ := hp
    exact hno x hx
  refine ⟨?_, ?_, ?_, ?_, ?_⟩
  · intro hno
    rw [canonicalHeadersOf, jsGet_jsSetMany, hmem _ hno]
    rfl
  · intro hno
    rw [canonicalHeadersOf, jsGet_jsSetMany, hmem _ hno]
    rfl
  · intro hno
    rw [canonicalHeadersOf, jsGet_jsSetMany, hmem _ hno]
    rfl
  · intro k v hlast
    rw [canonicalHeadersOf, jsGet_jsSetMany, hlast]
    rfl
  · intro k v hlast
    rw [requestHeadersOf, jsGet_jsSetMany, hlast]
    rfl

theorem C2_header_merge_witness :
    jsGet (canonicalHeadersOf "h.example.com" "ph" "ad" [("Content-Type", "text/plain")])
      "host" = some "h.example.com" ∧
    jsGet (canonicalHeadersOf "h.example.com" "ph" "ad" [("Content-Type", "text/plain")])
      "content-type" = some "text/plain" := by
  constructor
  · exact (C2_header_merge "h.example.com" "ph" "ad" "au"
      [("Content-Type", "text/plain")]).1 (by decide)
  · exact (C2_header_merge "h.example.com" "ph" "ad" "au"
      [("Content-Type", "text/plain")]).2.2.2.1 "content-type" "text/plain" (by decide)

/-- C8 counterexample: the instants 0 ms and 1 ms differ, yet the signer
computes the same `x-amz-date` for both (the formatted timestamp has
second granularity), so "for two different instants the x-amz-date
differs" fails. -/
theorem C8_counterexample :
    (0 : Nat) ≠ 1 ∧
    (signingArtifacts ⟨"acct", "bkt", "https://h.example.com", "AK", "SK", false⟩
        ⟨"GET", Option.none, Option.none, [], []⟩ 0).amzDate =
      (signingArtifacts ⟨"acct", "bkt", "https://h.example.com", "AK", "SK", false⟩
        ⟨"GET", Option.none, Option.none, [], []⟩ 1).amzDate := by
  refine ⟨by decide, by decide⟩

/-- C8 (amended): the signing computation depends on the instant only
through the formatted amz-date, so equal formatted timestamps (in
particular the same instant) give identical artifacts including the
`Authorization` header, while different formatted timestamps give
different `x-amz-date` values and different strings-to-sign. -/
theorem amz_cancel {a1 a2 s1 s2 h1x h2x : String}
    (hlen : a1.data.length = a2.data.length)
    (heq : "AWS4-HMAC-SHA256" ++ "\n" ++ a1 ++ "\n" ++ s1 ++ "\n" ++ h1x =
      "AWS4-HMAC-SHA256" ++ "\n" ++ a2 ++ "\n" ++ s2 ++ "\n" ++ h2x) : a1 = a2 := by
  have hd := congrArg String.data heq
  simp only [String.data_append, List.append_assoc] at hd
  have hd2 := List.append_cancel_left hd
  have hd3 := List.append_cancel_left hd2
  exact strDataInj (List.append_inj hd3 hlen).1

theorem C8_determinism (cfg : R2Config) (opts : RequestOptions) (t1 t2 : Nat) :
    (formatAmzDate t1 = formatAmzDate t2 →
      signingArtifacts cfg opts t1 = signingArtifacts cfg opts t2) ∧
    (formatAmzDate t1 ≠ formatAmzDate t2 →
      (signingArtifacts cfg opts t1).amzDate ≠ (signingArtifacts cfg opts t2).amzDate ∧
      (signingArtifacts cfg opts t1).stringToSign ≠
        (signingArtifacts cfg opts t2).stringToSign) := by
  have hamz : ∀ t, (signingArtifacts cfg opts t).amzDate = formatAmzDate t :=
    fun t => rfl
  have hsts : ∀ ad, ∃ scope hsh,
      (signingFromAmzDate cfg opts ad).stringToSign =
        "AWS4-HMAC-SHA256" ++ "\n" ++ ad ++ "\n" ++ scope ++ "\n" ++ hsh :=
    fun ad => ⟨_, _, rfl⟩
  constructor
  · intro h
    rw [signingArtifacts, signingArtifacts, h]
  · intro h
    constructor
    · rw [hamz, hamz]
      exact h
    · intro heq
      apply h
      obtain ⟨sc1, hs1, e1⟩ := hsts (formatAmzDate t1)
      obtain ⟨sc2, hs2, e2⟩ := hsts (formatAmzDate t2)
      rw [show (signingArtifacts cfg opts t1).stringToSign =
          (signingFromAmzDate cfg opts (formatAmzDate t1)).stringToSign from rfl,
        show (signingArtifacts cfg opts t2).stringToSign =
          (signingFromAmzDate cfg opts (formatAmzDate t2)).stringToSign from rfl,
        e1, e2] at heq
      exact amz_cancel (by rw [formatAmzDate_length, formatAmzDate_length]) heq

theorem C8_determinism_witness :
    signingArtifacts ⟨"a", "b", "https://h.example.com", "AK", "SK", false⟩
        ⟨"GET", Option.none, Option.none, [], []⟩ 0 =
      signingArtifacts ⟨"a", "b", "https://h.example.com", "AK", "SK", false⟩
        ⟨"GET", Option.none, Option.none, [], []⟩ 1 :=
  (C8_determinism ⟨"a", "b", "https://h.example.com", "AK", "SK", false⟩
    ⟨"GET", Option.none, Option.none, [], []⟩ 0 1).1 (by decide)

/-- The lexicographic order of the claim: by encoded key (JS code-unit
order), ties broken by encoded value. -/
def qLex (p q : String × String) : Prop :=
  jsStrLt p.1 q.1 = true ∨ (p.1 = q.1 ∧ jsStrLe p.2 q.2 = true)

theorem jsStrLe_iff (a b : String) :
    jsStrLe a b = true ↔ jsStrLtList b.data a.data = false := by
  simp [jsStrLe]

/-- C6: the canonical query string percent-encodes keys and values with
`encodeRfc3986` (escaping `!`, `'`, parens and `*`; unreserved characters
kept), yields the empty string for an absent query, canonicalizes the
documented example exactly, and for every query map with distinct keys it
is the `&`-join of the encoded pairs sorted lexicographically by encoded
key with ties broken by encoded value. -/
theorem C6_canonical_query :
    buildCanonicalQuery Option.none = "" ∧
    buildCanonicalQuery (some [("list-type", "2"), ("prefix", "diag/"),
      ("max-keys", "1")]) = "list-type=2&max-keys=1&prefix=diag%2F" ∧
    encodeRfc3986 "!'()*" = "%21%27%28%29%2A" ∧
    encodeRfc3986 "AZaz09-_.~" = "AZaz09-_.~" ∧
    (∀ q : List (String × String), (q.map Prod.fst).Nodup →
      ∃ parts : List (String × String),
        parts.Perm (q.map (fun p => (encodeRfc3986 p.1, encodeRfc3986 p.2))) ∧
        parts.Sorted qLex ∧
        buildCanonicalQuery (some q) =
          String.intercalate "&" (parts.map (fun p => p.1 ++ "=" ++ p.2))) := by
  refine ⟨rfl, by decide, by decide, by decide, ?_⟩
  intro q hnd
  haveI htot : IsTotal (String × String)
      (fun x y : String × String => jsStrLe x.1 y.1 = true) := by
    constructor
    intro a b
    rcases Bool.eq_false_or_eq_true (jsStrLtList b.1.data a.1.data) with hlt | hlt
    · exact Or.inr ((jsStrLe_iff b.1 a.1).mpr (jsStrLtList_asymm _ _ hlt))
    · exact Or.inl ((jsStrLe_iff a.1 b.1).mpr hlt)
  haveI htr : IsTrans (String × String)
      (fun x y : String × String => jsStrLe x.1 y.1 = true) := by
    constructor
    intro a b c hab hbc
    rw [jsStrLe_iff] at hab hbc ⊢
    by_contra hca
    have hca' : jsStrLtList c.1.data a.1.data = true := by
      cases hx : jsStrLtList c.1.data a.1.data
      · exact absurd hx hca
      · rfl
    cases hab2 : jsStrLtList a.1.data b.1.data with
    | true =>
      have ht := jsStrLtList_trans _ _ _ hca' hab2
      rw [ht] at hbc
      cases hbc
    | false =>
      have heqd : a.1.data = b.1.data := jsStrLtList_conn _ _ hab2 hab
      rw [← heqd] at hbc
      rw [hca'] at hbc
      cases hbc
  refine ⟨List.insertionSort (fun x y => jsStrLe x.1 y.1 = true)
    (q.map (fun p => (encodeRfc3986 p.1, encodeRfc3986 p.2))), ?_, ?_, ?_⟩
  · exact List.perm_insertionSort _ _
  · have hsorted := List.sorted_insertionSort
      (fun x y : String × String => jsStrLe x.1 y.1 = true)
      (q.map (fun p => (encodeRfc3986 p.1, encodeRfc3986 p.2)))
    have hmapnd : ((q.map (fun p => (encodeRfc3986 p.1, encodeRfc3986 p.2))).map
        Prod.fst).Nodup := by
      have : (q.map (fun p => (encodeRfc3986 p.1, encodeRfc3986 p.2))).map Prod.fst =
          (q.map Prod.fst).map encodeRfc3986 := by
        simp [List.map_map]
      rw [this]
      exact hnd.map encodeRfc3986_injective
    have hpartnd : ((List.insertionSort (fun x y => jsStrLe x.1 y.1 = true)
        (q.map (fun p => (encodeRfc3986 p.1, encodeRfc3986 p.2)))).map
        Prod.fst).Nodup := by
      exact (((List.perm_insertionSort _ _).map Prod.fst).nodup_iff).mpr hmapnd
    have hpne : List.Pairwise (fun a b : String × String => a.1 ≠ b.1)
        (List.insertionSort (fun x y => jsStrLe x.1 y.1 = true)
          (q.map (fun p => (encodeRfc3986 p.1, encodeRfc3986 p.2)))) := by
      exact List.pairwise_map.mp hpartnd
    refine (hsorted.and hpne).imp ?_
    rintro a b ⟨hle, hne⟩
    rw [jsStrLe_iff] at hle
    rcases Bool.eq_false_or_eq_true (jsStrLtList a.1.data b.1.data) with hab | hab
    · exact Or.inl hab
    · exact absurd (strDataInj (jsStrLtList_conn _ _ hab hle)) hne
  · rfl

theorem C6_witness :
    ∃ parts : List (String × String),
      parts.Perm ([("a", "1"), ("b", "2")].map
        (fun p => (encodeRfc3986 p.1, encodeRfc3986 p.2))) ∧
      parts.Sorted qLex ∧
      buildCanonicalQuery (some [("a", "1"), ("b", "2")]) =
        String.intercalate "&" (parts.map (fun p => p.1 ++ "=" ++ p.2)) :=
  C6_canonical_query.2.2.2.2 [("a", "1"), ("b", "2")] (by decide)

/-- C1: decoding a token produced by `encodeSession` under the same
non-empty secret yields exactly the admin claim. -/
theorem C1_roundtrip (secret : String) (h : secret ≠ "") :
    decodeSession (encodeSession ⟨true⟩ secret) (some secret) = some ⟨true⟩ := by
  have hbytes := strUtf8_lt (stringifyAdminSession ⟨true⟩ ++ "." ++
    signPayload (stringifyAdminSession ⟨true⟩) secret)
  have hdecoded : utf8Decode (fromBase64Url (encodeSession ⟨true⟩ secret)) =
      (stringifyAdminSession ⟨true⟩).data ++ '.' ::
        (signPayload (stringifyAdminSession ⟨true⟩) secret).data := by
    rw [show encodeSession ⟨true⟩ secret =
        toBase64UrlStr (stringifyAdminSession ⟨true⟩ ++ "." ++
          signPayload (stringifyAdminSession ⟨true⟩) secret) from rfl,
      toBase64UrlStr, fromBase64Url_toBase64Url _ hbytes, strUtf8,
      utf8Decode_utf8Encode]
    simp
  have hsig_nodot : ∀ c ∈ (signPayload (stringifyAdminSession ⟨true⟩) secret).data,
      c ≠ '.' :=
    toBase64Url_no_dot _ (hmacSha256_lt _ _)
  have hpay_nodot : ∀ c ∈ (stringifyAdminSession ⟨true⟩).data, c ≠ '.' := by decide
  have hlast : lastIndexOfDot (utf8Decode (fromBase64Url (encodeSession ⟨true⟩ secret)))
      = some (stringifyAdminSession ⟨true⟩).data.length := by
    rw [hdecoded]
    exact lastIndexOfDot_sep _ _ hpay_nodot hsig_nodot
  have htake : List.take (stringifyAdminSession ⟨true⟩).data.length
      ((stringifyAdminSession ⟨true⟩).data ++ '.' ::
        (signPayload (stringifyAdminSession ⟨true⟩) secret).data) =
      (stringifyAdminSession ⟨true⟩).data :=
    List.take_left _ _
  have hdrop : List.drop ((stringifyAdminSession ⟨true⟩).data.length + 1)
      ((stringifyAdminSession ⟨true⟩).data ++ '.' ::
        (signPayload (stringifyAdminSession ⟨true⟩) secret).data) =
      (signPayload (stringifyAdminSession ⟨true⟩) secret).data := by
    rw [show (stringifyAdminSession ⟨true⟩).data ++ '.' ::
        (signPayload (stringifyAdminSession ⟨true⟩) secret).data =
        ((stringifyAdminSession ⟨true⟩).data ++ ['.']) ++
          (signPayload (stringifyAdminSession ⟨true⟩) secret).data by simp]
    rw [show (stringifyAdminSession ⟨true⟩).data.length + 1 =
        ((stringifyAdminSession ⟨true⟩).data ++ ['.']).length by simp]
    exact List.drop_left _ _
  have hjson : jsonParse (stringifyAdminSession ⟨true⟩) =
      some (Json.obj [("isAdmin", Json.bool true)]) := rfl
  simp only [decodeSession]
  rw [if_neg h, hlast]
  dsimp only
  rw [hdecoded, htake, hdrop]
  rw [show String.mk (stringifyAdminSession ⟨true⟩).data =
      stringifyAdminSession ⟨true⟩ from rfl]
  rw [show String.mk (signPayload (stringifyAdminSession ⟨true⟩) secret).data =
      signPayload (stringifyAdminSession ⟨true⟩) secret from rfl]
  rw [if_neg (show ¬ ((fromBase64Url (signPayload (stringifyAdminSession ⟨true⟩)
      secret)).length ≠ (fromBase64Url (signPayload (stringifyAdminSession ⟨true⟩)
      secret)).length) from fun hc => hc rfl)]
  rw [if_neg (show ¬ (¬ timingSafeEqual
      (fromBase64Url (signPayload (stringifyAdminSession ⟨true⟩) secret))
      (fromBase64Url (signPayload (stringifyAdminSession ⟨true⟩) secret)) = true)
    from by simp [timingSafeEqual])]
  rw [hjson]
  rfl

theorem C1_roundtrip_witness :
    ("hunter2" : String) ≠ "" ∧
    decodeSession (encodeSession ⟨true⟩ "hunter2") (some "hunter2") = some ⟨true⟩ :=
  ⟨by decide, C1_roundtrip "hunter2" (by decide)⟩

end MintedDir
